import Mathlib

/-!
# castle-proto-cli: the request filler of `main.go`

A shallow embedding of `fillReq`, `setFields` and `main` of `src/main.go`.

Modelling conventions.

* Go strings are Lean `String`s (sequences of Unicode scalar values), so the
  model covers inputs that are valid UTF-8.
* A `reflect.Value` of an addressable struct is a `Value.struct` holding the
  ordered list of its fields, each a name and a typed value.  The constructor
  of a field value gives its `reflect.Kind` and whether `reflect` lets it be
  set: a settable field (`str`, `int`, ...) or a read-only one (`roStr`,
  `roInt`, ...), which is what an unexported field is, and every field reached
  through an unexported pointer field.  Pointers own their pointee
  (`Value.ptr (some v)`) or are nil (`Value.ptr none`): the heap is a tree,
  without aliasing or cycles.
* `reflect` panics (a `Set` call on a read-only field, `SetInt` on an unsigned
  kind, `Type` of the zero `reflect.Value`, `NumField` of a non-struct, an
  index out of range) are the outcome `panic`.  An `error` outcome carries the record as mutated so far:
  the code does no rollback.
* `int` is 64 bits wide (the targets on which Go's `plugin` package exists).
* The Go standard library is modelled where the code calls it:
  `strconv.Atoi` (`atoi`), `strings.Split` (`split`), `json.Unmarshal` into a
  `map[string]string` (`jsonUnmarshal`).  `strconv.ParseFloat` is a parameter
  of the model (`ParseFloat`), a float value being its IEEE-754 bit pattern.
* The recursion of `setFields` is bounded by a fuel argument; `setFields_total`
  shows that `bagSize params + 1` units always suffice.
-/

namespace Castle

/-! ## Argument bags (`map[string]string`) -/

/-- A Go `map[string]string`, as an association list; the first entry of a key is the one
the map holds. -/
abbrev Bag := List (String × String)

/-- The map index expression `params[key]`: the empty string when the key is absent. -/
def Bag.get (params : Bag) (key : String) : String :=
  match params.lookup key with
  | some value => value
  | none => ""

/-- Total number of characters of the values of a bag. -/
def bagSize : Bag → Nat
  | [] => 0
  | (_, value) :: rest => value.length + bagSize rest

/-! ## `strconv.Atoi` -/

/-- The value of a decimal digit, `none` for any other character. -/
def digitVal (c : Char) : Option Nat :=
  if 48 ≤ c.toNat ∧ c.toNat ≤ 57 then some (c.toNat - 48) else none

/-- Reads a run of decimal digits, most significant first, onto the accumulator. -/
def parseDigits : List Char → Nat → Option Nat
  | [], acc => some acc
  | c :: cs, acc =>
    match digitVal c with
    | some d => parseDigits cs (acc * 10 + d)
    | none => none

/-- Unsigned magnitude of a non-empty digit string. -/
def parseMagnitude (ds : List Char) : Option Nat :=
  match ds with
  | [] => none
  | _ :: _ => parseDigits ds 0

/-- Model of `strconv.Atoi` with a 64-bit `int`: an optional sign, at least one decimal digit,
nothing else, and a value in `[-2^63, 2^63 - 1]`; `none` stands for its syntax and range
errors. -/
def atoi (s : String) : Option Int :=
  match s.data with
  | [] => none
  | c :: cs =>
    if c = '-' then
      match parseMagnitude cs with
      | some n => if n ≤ 2 ^ 63 then some (-(n : Int)) else none
      | none => none
    else if c = '+' then
      match parseMagnitude cs with
      | some n => if n < 2 ^ 63 then some (n : Int) else none
      | none => none
    else
      match parseMagnitude (c :: cs) with
      | some n => if n < 2 ^ 63 then some (n : Int) else none
      | none => none

/-! ## `json.Unmarshal` into a `map[string]string` -/

/-- Tokens of the JSON texts that decode into a `map[string]string`. -/
inductive Tok where
  | lbrace
  | rbrace
  | colon
  | comma
  | null
  | str (s : List Char)

/-- JSON insignificant whitespace. -/
def isSpace (c : Char) : Bool :=
  c = ' ' || c = '\t' || c = '\r' || c = '\n'

/-- Value of a hexadecimal digit of a `\u` escape. -/
def hexVal (c : Char) : Option Nat :=
  if 48 ≤ c.toNat ∧ c.toNat ≤ 57 then some (c.toNat - 48)
  else if 97 ≤ c.toNat ∧ c.toNat ≤ 102 then some (c.toNat - 87)
  else if 65 ≤ c.toNat ∧ c.toNat ≤ 70 then some (c.toNat - 55)
  else none

/-- The code unit of the four hexadecimal digits of a `\u` escape (`getu4`). -/
def hex4 (a b c d : Char) : Option Nat :=
  match hexVal a, hexVal b, hexVal c, hexVal d with
  | some x, some y, some z, some w => some (((x * 16 + y) * 16 + z) * 16 + w)
  | _, _, _, _ => none

/-- The character of a single-letter escape. -/
def unescape (e : Char) : Option Char :=
  if e = '"' then some '"'
  else if e = '\\' then some '\\'
  else if e = '/' then some '/'
  else if e = 'b' then some (Char.ofNat 8)
  else if e = 'f' then some (Char.ofNat 12)
  else if e = 'n' then some '\n'
  else if e = 'r' then some '\r'
  else if e = 't' then some '\t'
  else none

/-- The low surrogate escape that directly follows a high surrogate, with the text after it. -/
def lowSurrogate (hi : Nat) (rest : List Char) : Option (Nat × List Char) :=
  match rest with
  | b :: u :: a1 :: a2 :: a3 :: a4 :: rest2 =>
    if b = '\\' ∧ u = 'u' ∧ hi < 0xDC00 then
      match hex4 a1 a2 a3 a4 with
      | some lo => if 0xDC00 ≤ lo ∧ lo < 0xE000 then some (lo, rest2) else none
      | none => none
    else none
  | _ => none

/-- What a `\uXXXX` escape with code unit `rr` decodes to, and how many further characters
(0 or 6) it consumes: a surrogate pair is combined, a lone surrogate becomes U+FFFD. -/
def decodeU (rr : Nat) (rest : List Char) : Char × Nat :=
  if 0xD800 ≤ rr ∧ rr < 0xE000 then
    match lowSurrogate rr rest with
    | some (lo, _) => (Char.ofNat ((rr - 0xD800) * 1024 + (lo - 0xDC00) + 0x10000), 6)
    | none => (Char.ofNat 0xFFFD, 0)
  else (Char.ofNat rr, 0)

/-- The scanner.  `mode = none` outside a string literal; `mode = some acc` inside one, `acc`
being the characters decoded so far, last first.  `skip` characters are still to be dropped
(the second half of a surrogate pair).  Any text that is not built from braces, colons,
commas, `null` and string literals is rejected: it is either no JSON or holds a value that
does not fit a `map[string]string`. -/
def scan (mode : Option (List Char)) (skip : Nat) : List Char → Option (List Tok)
  | [] =>
    match mode with
    | none => some []
    | some _ => none
  | c :: cs =>
    match skip with
    | skip + 1 => scan mode skip cs
    | 0 =>
      match mode with
      | none =>
        if isSpace c then scan none 0 cs
        else if c = '{' then (scan none 0 cs).map (Tok.lbrace :: ·)
        else if c = '}' then (scan none 0 cs).map (Tok.rbrace :: ·)
        else if c = ':' then (scan none 0 cs).map (Tok.colon :: ·)
        else if c = ',' then (scan none 0 cs).map (Tok.comma :: ·)
        else if c = '"' then scan (some []) 0 cs
        else if c = 'n' then
          match cs with
          | u :: l1 :: l2 :: rest =>
            if u = 'u' ∧ l1 = 'l' ∧ l2 = 'l' then (scan none 0 rest).map (Tok.null :: ·)
            else none
          | _ => none
        else none
      | some acc =>
        if c = '"' then (scan none 0 cs).map (Tok.str acc.reverse :: ·)
        else if c = '\\' then
          match cs with
          | e :: rest =>
            if e = 'u' then
              match rest with
              | a1 :: a2 :: a3 :: a4 :: rest2 =>
                match hex4 a1 a2 a3 a4 with
                | some rr => scan (some ((decodeU rr rest2).1 :: acc)) (decodeU rr rest2).2 rest2
                | none => none
              | _ => none
            else
              match unescape e with
              | some ch => scan (some (ch :: acc)) 0 rest
              | none => none
          | [] => none
        else if c.toNat < 0x20 then none
        else scan (some (c :: acc)) 0 cs

/-- The string a member's value token stores in the map: a string literal is stored, `null`
leaves the element at its zero value, any other token is a type error. -/
def memberValue : Tok → Option String
  | Tok.str s => some (String.mk s)
  | Tok.null => some ""
  | _ => none

/-- The members of an object, after its opening brace or a comma; a later entry of a key
replaces an earlier one. -/
def members : List Tok → Bag → Option Bag
  | Tok.str k :: Tok.colon :: t :: Tok.comma :: rest, acc =>
    match memberValue t with
    | some value => members rest ((String.mk k, value) :: acc)
    | none => none
  | [Tok.str k, Tok.colon, t, Tok.rbrace], acc =>
    match memberValue t with
    | some value => some ((String.mk k, value) :: acc)
    | none => none
  | _, _ => none

/-- Model of `json.Unmarshal([]byte(data), &m)` for a nil `m map[string]string`: `some bag`
when it returns no error (`null` leaves the map nil, read as the empty bag), `none` for a
syntax error or a value that is not a string. -/
def jsonUnmarshal (data : String) : Option Bag :=
  match scan none 0 data.data with
  | some [Tok.null] => some []
  | some [Tok.lbrace, Tok.rbrace] => some []
  | some (Tok.lbrace :: toks) => members toks []
  | _ => none

/-! ## `strings.Split` with a one-character separator -/

/-- Splits at every occurrence of `sep`; `cur` holds the current part, last character first. -/
def splitChars (sep : Char) : List Char → List Char → List (List Char)
  | [], cur => [cur.reverse]
  | c :: cs, cur =>
    if c = sep then cur.reverse :: splitChars sep cs [] else splitChars sep cs (c :: cur)

/-- Model of `strings.Split(s, sep)` for a separator of one character: one part more than
there are separators (so one empty part for the empty string). -/
def split (s : String) (sep : Char) : List String :=
  (splitChars sep s.data []).map String.mk

/-! ## Values seen through `reflect` -/

/-- The signed integer kinds of `reflect`. -/
inductive IntKind where
  | int
  | int8
  | int16
  | int32
  | int64
deriving DecidableEq, Repr

/-- The unsigned integer kinds of `reflect`. -/
inductive UintKind where
  | uint
  | uint8
  | uint16
  | uint32
  | uint64
  | uintptr
deriving DecidableEq, Repr

/-- The floating-point kinds of `reflect`. -/
inductive FloatKind where
  | float32
  | float64
deriving DecidableEq, Repr

/-- A floating-point value, as its IEEE-754 bit pattern (`0` is `+0.0`). -/
abbrev FloatVal := Nat

/-- The library function `strconv.ParseFloat(value, bitSize)`, `none` for its errors. -/
abbrev ParseFloat := Nat → String → Option FloatVal

/-- A typed value as `reflect` presents it.  `other` stands for every kind the switch of
`setFields` has no case for besides the integer ones (arrays, slices, maps, interfaces,
channels, functions, complex numbers, unsafe pointers).

The constructors `roStr` to `roPtr` are the values `reflect` presents read-only: the value of
an unexported field, or of a field reached through one.  On them `SetString`, `SetInt`,
`SetFloat` and `SetBool` panic.  A by-value struct field and a field of another kind need no
read-only form: the code never assigns to them. -/
inductive Value where
  | str (s : String)
  | int (k : IntKind) (n : Int)
  | uint (k : UintKind) (n : Nat)
  | float (k : FloatKind) (x : FloatVal)
  | bool (b : Bool)
  | ptr (target : Option Value)
  | struct (fields : List (String × Value))
  | other
  | roStr (s : String)
  | roInt (k : IntKind) (n : Int)
  | roUint (k : UintKind) (n : Nat)
  | roFloat (k : FloatKind) (x : FloatVal)
  | roBool (b : Bool)
  | roPtr (target : Option Value)

/-- The fields of a struct value (none for any other value). -/
def Value.fields : Value → List (String × Value)
  | Value.struct fs => fs
  | _ => []

/-- Width in bits of a signed kind. -/
def IntKind.bits : IntKind → Nat
  | IntKind.int => 64
  | IntKind.int8 => 8
  | IntKind.int16 => 16
  | IntKind.int32 => 32
  | IntKind.int64 => 64

/-- Width in bits of an unsigned kind. -/
def UintKind.bits : UintKind → Nat
  | UintKind.uint => 64
  | UintKind.uint8 => 8
  | UintKind.uint16 => 16
  | UintKind.uint32 => 32
  | UintKind.uint64 => 64
  | UintKind.uintptr => 64

/-- Is the signed kind listed in the integer `case` of the switch
(`Int8, Int16, Int32, Int64`; `Int` is not). -/
def IntKind.inCase : IntKind → Bool
  | IntKind.int => false
  | _ => true

/-- Is the unsigned kind listed in the integer `case` of the switch
(`Uint8, Uint32, Uint64`; `Uint`, `Uint16` and `Uintptr` are not). -/
def UintKind.inCase : UintKind → Bool
  | UintKind.uint8 => true
  | UintKind.uint32 => true
  | UintKind.uint64 => true
  | _ => false

/-- The conversion `intN(x)` that `reflect.Value.SetInt` applies: `x` modulo `2^bits`, read as
a two's-complement number. -/
def wrapInt (bits : Nat) (x : Int) : Int :=
  (x + 2 ^ (bits - 1)) % 2 ^ bits - 2 ^ (bits - 1)

/-- The `bitSize` the float case passes to `strconv.ParseFloat`. -/
def FloatKind.bitSize : FloatKind → Nat
  | FloatKind.float32 => 32
  | FloatKind.float64 => 64

/-! ## `setFields` and `fillReq` -/

/-- The errors `fillReq` returns. -/
inductive Err where
  | convInt (value : String)
  | convFloat (value : String)
  | decode (value : String)
  | notStruct
deriving DecidableEq, Repr

/-- How a call of `setFields` ends.  `ok v` and `error v e` carry the value as the call left
it (`error`: mutated up to the failure); `outOfFuel` is the model running out of fuel. -/
inductive Outcome where
  | ok (v : Value)
  | error (v : Value) (e : Err)
  | panic
  | outOfFuel

/-- One iteration of the loop of `setFields`: the `switch` on the kind of field `fieldNum`,
whose name is `name` and current value `fv`, with `value = params[name]`.  `fs` is the struct
being filled and `self` the recursive call.  On a read-only field the conversion is made as
on any field, and the `Set` call that follows it panics. -/
def setField (pf : ParseFloat) (self : Value → Bag → Outcome) (fs : List (String × Value))
    (fieldNum : Nat) (name : String) (fv : Value) (value : String) : Outcome :=
  match fv with
  | Value.str _ => Outcome.ok (Value.struct (fs.set fieldNum (name, Value.str value)))
  | Value.int k _ =>
    if k.inCase then
      match atoi value with
      | none => Outcome.error (Value.struct fs) (Err.convInt value)
      | some num =>
        Outcome.ok (Value.struct (fs.set fieldNum (name, Value.int k (wrapInt k.bits num))))
    else Outcome.ok (Value.struct fs)
  | Value.uint k _ =>
    if k.inCase then
      match atoi value with
      | none => Outcome.error (Value.struct fs) (Err.convInt value)
      | some _ => Outcome.panic
    else Outcome.ok (Value.struct fs)
  | Value.float k _ =>
    match pf k.bitSize value with
    | none => Outcome.error (Value.struct fs) (Err.convFloat value)
    | some num => Outcome.ok (Value.struct (fs.set fieldNum (name, Value.float k num)))
  | Value.bool _ =>
    Outcome.ok (Value.struct (fs.set fieldNum (name, Value.bool (decide (value = "true")))))
  | Value.ptr target =>
    match jsonUnmarshal value with
    | none => Outcome.error (Value.struct fs) (Err.decode value)
    | some internalValues =>
      match target with
      | none => Outcome.panic
      | some internalV =>
        match self internalV internalValues with
        | Outcome.ok w => Outcome.ok (Value.struct (fs.set fieldNum (name, Value.ptr (some w))))
        | Outcome.error w e =>
          Outcome.error (Value.struct (fs.set fieldNum (name, Value.ptr (some w)))) e
        | Outcome.panic => Outcome.panic
        | Outcome.outOfFuel => Outcome.outOfFuel
  | Value.struct _ =>
    match jsonUnmarshal value with
    | none => Outcome.error (Value.struct fs) (Err.decode value)
    | some internalValues => self (Value.struct fs) internalValues
  | Value.other => Outcome.ok (Value.struct fs)
  | Value.roStr _ => Outcome.panic
  | Value.roInt k _ =>
    if k.inCase then
      match atoi value with
      | none => Outcome.error (Value.struct fs) (Err.convInt value)
      | some _ => Outcome.panic
    else Outcome.ok (Value.struct fs)
  | Value.roUint k _ =>
    if k.inCase then
      match atoi value with
      | none => Outcome.error (Value.struct fs) (Err.convInt value)
      | some _ => Outcome.panic
    else Outcome.ok (Value.struct fs)
  | Value.roFloat k _ =>
    match pf k.bitSize value with
    | none => Outcome.error (Value.struct fs) (Err.convFloat value)
    | some _ => Outcome.panic
  | Value.roBool _ => Outcome.panic
  | Value.roPtr target =>
    match jsonUnmarshal value with
    | none => Outcome.error (Value.struct fs) (Err.decode value)
    | some internalValues =>
      match target with
      | none => Outcome.panic
      | some internalV =>
        match self internalV internalValues with
        | Outcome.ok w => Outcome.ok (Value.struct (fs.set fieldNum (name, Value.roPtr (some w))))
        | Outcome.error w e =>
          Outcome.error (Value.struct (fs.set fieldNum (name, Value.roPtr (some w)))) e
        | Outcome.panic => Outcome.panic
        | Outcome.outOfFuel => Outcome.outOfFuel

/-- The loop `for fieldNum := 0; fieldNum < typ.NumField(); fieldNum++`, with `remaining`
iterations to go from `fieldNum` on. -/
def setFieldsFrom (pf : ParseFloat) (self : Value → Bag → Outcome) (params : Bag) :
    Nat → Nat → List (String × Value) → Outcome
  | 0, _, fs => Outcome.ok (Value.struct fs)
  | remaining + 1, fieldNum, fs =>
    match fs[fieldNum]? with
    | none => Outcome.panic
    | some (name, fv) =>
      match setField pf self fs fieldNum name fv (params.get name) with
      | Outcome.ok w => setFieldsFrom pf self params remaining (fieldNum + 1) w.fields
      | out => out

/-- The function `setFields(v, params)`.  `typ.NumField()` panics when `v` is not a struct
(so does `v.Type()` on the zero `reflect.Value`, handled where a nil pointer is met). -/
def setFields (pf : ParseFloat) : Nat → Value → Bag → Outcome
  | 0, _, _ => Outcome.outOfFuel
  | fuel + 1, Value.struct fs, params =>
    setFieldsFrom pf (setFields pf fuel) params fs.length 0 fs
  | _ + 1, _, _ => Outcome.panic

/-- The function `fillReq(req, params)`; `req` is the value the `message.Message` interface
holds.  `Elem` panics unless that is a pointer; the pointee of a nil pointer has kind
`Invalid`.  The outcome carries `req` with its pointee as `setFields` left it. -/
def fillReq (pf : ParseFloat) (fuel : Nat) (req : Value) (params : Bag) : Outcome :=
  match req with
  | Value.ptr (some (Value.struct fs)) =>
    match setFields pf fuel (Value.struct fs) params with
    | Outcome.ok w => Outcome.ok (Value.ptr (some w))
    | Outcome.error w e => Outcome.error (Value.ptr (some w)) e
    | Outcome.panic => Outcome.panic
    | Outcome.outOfFuel => Outcome.outOfFuel
  | Value.ptr _ => Outcome.error req Err.notStruct
  | _ => Outcome.panic

/-- A float parser that accepts no literal: it instantiates the library parameter on inputs
that have no float field. -/
def rejectFloats : ParseFloat := fun _ _ => none

/-! ## Measures used in the proofs -/

/-- Size of a token list: the number of characters of source text it needs at least. -/
def tokSize : List Tok → Nat
  | [] => 0
  | Tok.str s :: ts => s.length + 2 + tokSize ts
  | _ :: ts => 1 + tokSize ts

/-- Characters of the source a scanner mode has already accounted for. -/
def modeSize : Option (List Char) → Nat
  | none => 0
  | some acc => acc.length + 1

/-! ## Shapes -/

/-- The `reflect.Kind` of a value. -/
inductive Tag where
  | str
  | int (k : IntKind)
  | uint (k : UintKind)
  | float (k : FloatKind)
  | bool
  | ptr
  | struct
  | other
deriving DecidableEq, Repr

/-- The kind of a value. -/
def Value.tag : Value → Tag
  | Value.str _ => Tag.str
  | Value.int k _ => Tag.int k
  | Value.uint k _ => Tag.uint k
  | Value.float k _ => Tag.float k
  | Value.bool _ => Tag.bool
  | Value.ptr _ => Tag.ptr
  | Value.struct _ => Tag.struct
  | Value.other => Tag.other
  | Value.roStr _ => Tag.str
  | Value.roInt k _ => Tag.int k
  | Value.roUint k _ => Tag.uint k
  | Value.roFloat k _ => Tag.float k
  | Value.roBool _ => Tag.bool
  | Value.roPtr _ => Tag.ptr

/-- The record has a field of by-value struct kind at position `fieldNum` or later. -/
def HasStructFrom (fieldNum : Nat) (fs : List (String × Value)) : Prop :=
  ∃ j name inner, fieldNum ≤ j ∧ fs[j]? = some (name, Value.struct inner)

/-- A recursive call that never fills a record having a by-value struct field. -/
def NeverFillsNested (self : Value → Bag → Outcome) : Prop :=
  ∀ fs params w, HasStructFrom 0 fs → self (Value.struct fs) params ≠ Outcome.ok w

/-- The field names of a record, in declared order. -/
def Value.fieldNames (v : Value) : List String :=
  v.fields.map Prod.fst

/-! ## What the scalar cases of the switch store -/

/-- The value a successful iteration leaves in a field that is no pointer: the string, the
parsed integer narrowed to the field's width, the parsed float, the comparison with `"true"`;
a field of a kind without a case keeps its value. -/
def convert (pf : ParseFloat) (fv : Value) (value : String) : Value :=
  match fv with
  | Value.str _ => Value.str value
  | Value.int k n =>
    if k.inCase then
      match atoi value with
      | some num => Value.int k (wrapInt k.bits num)
      | none => Value.int k n
    else Value.int k n
  | Value.float k x =>
    match pf k.bitSize value with
    | some num => Value.float k num
    | none => Value.float k x
  | Value.bool _ => Value.bool (decide (value = "true"))
  | v => v

/-- Does the iteration on a field succeed without a recursive call: the field is no pointer
and no struct, no unsigned integer listed in the integer case, its number, if it is one,
parses, and no `Set` is called on a read-only field. -/
def converts (pf : ParseFloat) (fv : Value) (value : String) : Bool :=
  match fv with
  | Value.str _ => true
  | Value.int k _ => !k.inCase || (atoi value).isSome
  | Value.uint k _ => !k.inCase
  | Value.float k _ => (pf k.bitSize value).isSome
  | Value.bool _ => true
  | Value.ptr _ => false
  | Value.struct _ => false
  | Value.other => true
  | Value.roStr _ => false
  | Value.roInt k _ => !k.inCase
  | Value.roUint k _ => !k.inCase
  | Value.roFloat _ _ => false
  | Value.roBool _ => false
  | Value.roPtr _ => false

/-- The field as `convert` leaves it, looked up in `params` under its name. -/
def convertField (pf : ParseFloat) (params : Bag) (f : String × Value) : String × Value :=
  (f.1, convert pf f.2 (params.get f.1))

/-- The settable fields of the scalar kinds the switch handles: string, `int8` to `int64`,
the floats, boolean (a read-only field is none of them). -/
def isScalar : Value → Bool
  | Value.str _ => true
  | Value.int k _ => k.inCase
  | Value.float _ _ => true
  | Value.bool _ => true
  | _ => false

/-- The integer and float kinds. -/
def isNumeric : Value → Bool
  | Value.int _ _ => true
  | Value.uint _ _ => true
  | Value.float _ _ => true
  | Value.roInt _ _ => true
  | Value.roUint _ _ => true
  | Value.roFloat _ _ => true
  | _ => false

/-- Is the string a valid value for the field: a literal the parser of the field's kind
accepts; any string for a string or boolean field. -/
def validFor (pf : ParseFloat) (fv : Value) (s : String) : Bool :=
  match fv with
  | Value.int _ _ => (atoi s).isSome
  | Value.uint _ _ => (atoi s).isSome
  | Value.float k _ => (pf k.bitSize s).isSome
  | _ => true

/-- The zero value of the kind of a scalar value. -/
def zeroOf : Value → Value
  | Value.str _ => Value.str ""
  | Value.int k _ => Value.int k 0
  | Value.uint k _ => Value.uint k 0
  | Value.float k _ => Value.float k 0
  | Value.bool _ => Value.bool false
  | v => v

/-- Does the value of a field fail conversion or decoding: an integer or float literal the
parser rejects, or, for a pointer or struct field, a text `json.Unmarshal` rejects. -/
def conversionFails (pf : ParseFloat) (fv : Value) (value : String) : Bool :=
  match fv with
  | Value.int k _ => k.inCase && (atoi value).isNone
  | Value.uint k _ => k.inCase && (atoi value).isNone
  | Value.float k _ => (pf k.bitSize value).isNone
  | Value.ptr _ => (jsonUnmarshal value).isNone
  | Value.struct _ => (jsonUnmarshal value).isNone
  | Value.roInt k _ => k.inCase && (atoi value).isNone
  | Value.roUint k _ => k.inCase && (atoi value).isNone
  | Value.roFloat k _ => (pf k.bitSize value).isNone
  | Value.roPtr _ => (jsonUnmarshal value).isNone
  | _ => false

/-- The error a failing conversion or decoding returns. -/
def failure (fv : Value) (value : String) : Err :=
  match fv with
  | Value.float _ _ => Err.convFloat value
  | Value.ptr _ => Err.decode value
  | Value.struct _ => Err.decode value
  | Value.roFloat _ _ => Err.convFloat value
  | Value.roPtr _ => Err.decode value
  | _ => Err.convInt value

/-! ## `main` -/

/-- The command-line flags. -/
structure Flags where
  connString : String
  inputFilepath : String
  endpointString : String
  inputArgs : String

/-- What the collaborators of `main` do in one run: whether `copyFile`,
`changePackageName` (which ends the run itself when it fails), `defs.GenerateDefinitions` and
`plugin.Open` succeed; the registry that the symbol `GenEmptyHandlers` returns, method name
to request value (`none`: the lookup fails); the function behind the symbol
`CallClientMethod` (`none`: the lookup fails), which returns a response or an error;
`json.Marshal` of the response; and `strconv.ParseFloat`. -/
structure Env where
  copyFile : Bool
  changePackageName : Bool
  generateDefinitions : Bool
  pluginOpen : Bool
  handlers : Option (List (String × Value))
  callClientMethod : Option (String → Int → String → String → Value → Option Value)
  marshal : Value → Option String
  parseFloat : ParseFloat

/-- The steps of a run that act on the world or on the request, in the order executed. -/
inductive Step where
  | copyFile
  | changePackageName
  | generateDefinitions
  | pluginOpen
  | lookup (symbol : String)
  | fillReq
  | callClientMethod (host : String) (port : Int) (service method : String) (req : Value)
  | print (json : String)

/-- How a run ends: `log.Fatal*` with a message, a panic, or normally.  `outOfFuel` is the
model of `fillReq` running out of fuel, which `setFields_total` excludes. -/
inductive Exit where
  | fatal (msg : String)
  | panic
  | done
  | outOfFuel

/-- A run of `main`: the steps executed and the way it ended. -/
structure Run where
  steps : List Step
  exit : Exit

/-- The steps of `main` up to the loading of the generated artifact. -/
def preparation : List Step :=
  [Step.copyFile, Step.changePackageName, Step.generateDefinitions, Step.pluginOpen]

/-- The function `main`. -/
def main (env : Env) (flags : Flags) : Run :=
  if env.copyFile = false then ⟨[Step.copyFile], Exit.fatal "error copying file"⟩
  else if env.changePackageName = false then
    ⟨[Step.copyFile, Step.changePackageName], Exit.fatal "error changing package name"⟩
  else if env.generateDefinitions = false then
    ⟨[Step.copyFile, Step.changePackageName, Step.generateDefinitions],
      Exit.fatal "error generating definitions"⟩
  else if env.pluginOpen = false then ⟨preparation, Exit.fatal "error oppening plugin"⟩
  else
    let conns := split flags.connString ':'
    if conns.length ≠ 2 then ⟨preparation, Exit.fatal "incorrect conn string"⟩
    else
      let endpoint := split flags.endpointString '.'
      let looked := preparation ++ [Step.lookup "GenEmptyHandlers"]
      match env.handlers with
      | none => ⟨looked, Exit.fatal "symbol not found"⟩
      | some handlers =>
        match endpoint[1]? with
        | none => ⟨looked, Exit.panic⟩
        | some method =>
          match handlers.lookup method with
          | none => ⟨looked, Exit.fatal "incorrect method name"⟩
          | some req =>
            match jsonUnmarshal flags.inputArgs with
            | none => ⟨looked, Exit.fatal "incorrect input args"⟩
            | some args =>
              let filled := looked ++ [Step.fillReq]
              match fillReq env.parseFloat (bagSize args + 1) req args with
              | Outcome.error _ _ => ⟨filled, Exit.fatal "error filling args to req object"⟩
              | Outcome.panic => ⟨filled, Exit.panic⟩
              | Outcome.outOfFuel => ⟨filled, Exit.outOfFuel⟩
              | Outcome.ok req' =>
                match atoi (conns.getD 1 "") with
                | none => ⟨filled, Exit.fatal "incorrect port"⟩
                | some port =>
                  let looked2 := filled ++ [Step.lookup "CallClientMethod"]
                  match env.callClientMethod with
                  | none => ⟨looked2, Exit.fatal "symbol not found"⟩
                  | some call =>
                    let called := looked2 ++ [Step.callClientMethod (conns.getD 0 "") port
                      (endpoint.getD 0 "") method req']
                    match call (conns.getD 0 "") port (endpoint.getD 0 "") method req' with
                    | none => ⟨called, Exit.fatal "error calling client method"⟩
                    | some response =>
                      match env.marshal response with
                      | none => ⟨called, Exit.fatal "error marshalling response to json"⟩
                      | some jsonResp => ⟨called ++ [Step.print jsonResp], Exit.done⟩

/-- An environment in which every collaborator succeeds, with one registered method `M`
whose request is a pointer to a struct with a field `Name string`. -/
def sampleEnv : Env where
  copyFile := true
  changePackageName := true
  generateDefinitions := true
  pluginOpen := true
  handlers := some [("M", Value.ptr (some (Value.struct [("Name", Value.str "")])))]
  callClientMethod := some (fun _ _ _ _ req => some req)
  marshal := fun _ => some "\x7b\x7d"
  parseFloat := rejectFloats

/-! ## Records on which no call can panic -/

/-- No field before position `fieldNum` is of by-value struct kind: the loop can get as far
as `fieldNum`. -/
def NoStructBefore (fieldNum : Nat) (fs : List (String × Value)) : Prop :=
  ∀ j name inner, j < fieldNum → fs[j]? ≠ some (name, Value.struct inner)

/-- A field value on which the iteration cannot panic: not an unsigned integer of a kind
listed in the integer case, not a read-only field of a kind the switch assigns to, not a nil
pointer, and, for a pointer, a pointee that is a record whose reachable fields are calm in
turn.  (The fields after a by-value struct field are never reached.) -/
inductive Calm : Value → Prop where
  | str (s : String) : Calm (Value.str s)
  | int (k : IntKind) (n : Int) : Calm (Value.int k n)
  | uint (k : UintKind) (n : Nat) : k.inCase = false → Calm (Value.uint k n)
  | float (k : FloatKind) (x : FloatVal) : Calm (Value.float k x)
  | bool (b : Bool) : Calm (Value.bool b)
  | other : Calm Value.other
  | struct (inner : List (String × Value)) : Calm (Value.struct inner)
  | ptr (fs : List (String × Value)) :
    (∀ (j : Nat) name fv, fs[j]? = some (name, fv) → NoStructBefore j fs → Calm fv) →
    Calm (Value.ptr (some (Value.struct fs)))
  | roInt (k : IntKind) (n : Int) : k.inCase = false → Calm (Value.roInt k n)
  | roUint (k : UintKind) (n : Nat) : k.inCase = false → Calm (Value.roUint k n)
  | roPtr (fs : List (String × Value)) :
    (∀ (j : Nat) name fv, fs[j]? = some (name, fv) → NoStructBefore j fs → Calm fv) →
    Calm (Value.roPtr (some (Value.struct fs)))

/-- Every field the loop can reach is calm. -/
def CalmFields (fs : List (String × Value)) : Prop :=
  ∀ (j : Nat) name fv, fs[j]? = some (name, fv) → NoStructBefore j fs → Calm fv

/-- A record whose reachable fields are calm. -/
def CalmRec (v : Value) : Prop :=
  ∃ fs, v = Value.struct fs ∧ CalmFields fs

/-- The outcome is no panic, and the value it leaves is a calm record. -/
def Outcome.Calmly : Outcome → Prop
  | Outcome.ok w => CalmRec w
  | Outcome.error w _ => CalmRec w
  | Outcome.panic => False
  | Outcome.outOfFuel => True

/-- A recursive call that, on a calm record, does not panic and leaves a calm record. -/
def SelfCalm (self : Value → Bag → Outcome) : Prop :=
  ∀ v params, CalmRec v → (self v params).Calmly

/-- A recursive call that succeeds on calm records only. -/
def SelfFillsCalm (self : Value → Bag → Outcome) : Prop :=
  ∀ v params w, self v params = Outcome.ok w → CalmRec v

/-- The record a call returns with, on success or with an error; none after a panic. -/
def Outcome.state? : Outcome → Option Value
  | Outcome.ok w => some w
  | Outcome.error w _ => some w
  | Outcome.panic => none
  | Outcome.outOfFuel => none

/-! # Properties -/

/-! ## The library models -/

theorem Bag.get_length_le (params : Bag) (key : String) :
    (params.get key).length ≤ bagSize params := by
  induction params with
  | nil => simp [Bag.get, List.lookup]
  | cons p rest ih =>
    obtain ⟨k, v⟩ := p
    unfold Bag.get at ih ⊢
    simp only [List.lookup, bagSize]
    cases hk : (key == k) with
    | true => simp
    | false => simp only []; omega

theorem scan_size (n : Nat) : ∀ (cs : List Char), cs.length ≤ n →
    ∀ (mode : Option (List Char)) (skip : Nat) (toks : List Tok),
      scan mode skip cs = some toks → tokSize toks ≤ cs.length + modeSize mode := by
  induction n with
  | zero =>
    intro cs hn mode skip toks h
    have : cs = [] := List.length_eq_zero.mp (Nat.le_zero.mp hn)
    subst this
    cases mode with
    | none => simp [scan] at h; subst h; simp [tokSize]
    | some acc => simp [scan] at h
  | succ n ih =>
    intro cs hn mode skip toks h
    cases cs with
    | nil =>
      cases mode with
      | none => simp [scan] at h; subst h; simp [tokSize]
      | some acc => simp [scan] at h
    | cons c cs =>
      simp only [List.length_cons] at hn ⊢
      rw [scan.eq_def] at h
      simp only at h
      split at h
      · have := ih cs (by omega) mode _ toks h
        omega
      · split at h
        · -- outside a string literal
          simp only [modeSize]
          split_ifs at h with h1 h2 h3 h4 h5 h6 h7
          · have := ih cs (by omega) none 0 toks h; simp [modeSize] at this; omega
          · simp only [Option.map_eq_some'] at h
            obtain ⟨ts, hts, rfl⟩ := h
            have := ih cs (by omega) none 0 ts hts
            simp [modeSize, tokSize] at *; omega
          · simp only [Option.map_eq_some'] at h
            obtain ⟨ts, hts, rfl⟩ := h
            have := ih cs (by omega) none 0 ts hts
            simp [modeSize, tokSize] at *; omega
          · simp only [Option.map_eq_some'] at h
            obtain ⟨ts, hts, rfl⟩ := h
            have := ih cs (by omega) none 0 ts hts
            simp [modeSize, tokSize] at *; omega
          · simp only [Option.map_eq_some'] at h
            obtain ⟨ts, hts, rfl⟩ := h
            have := ih cs (by omega) none 0 ts hts
            simp [modeSize, tokSize] at *; omega
          · have := ih cs (by omega) (some []) 0 toks h; simp [modeSize] at this; omega
          · split at h
            · split_ifs at h
              simp only [Option.map_eq_some'] at h
              obtain ⟨ts, hts, rfl⟩ := h
              have := ih _ (by simp only [List.length_cons] at hn; omega) none 0 ts hts
              simp [modeSize, tokSize] at *; omega
            · exact absurd h (by simp)
        · -- inside a string literal
          rename_i acc
          simp only [modeSize]
          split_ifs at h with h1 h2 h3
          · simp only [Option.map_eq_some'] at h
            obtain ⟨ts, hts, rfl⟩ := h
            have := ih cs (by omega) none 0 ts hts
            simp [modeSize, tokSize] at *; omega
          · split at h
            · split_ifs at h
              · split at h
                · split at h
                  · have := ih _ (by simp only [List.length_cons] at hn; omega) _ _ toks h
                    simp [modeSize] at *; omega
                  · exact absurd h (by simp)
                · exact absurd h (by simp)
              · split at h
                · have := ih _ (by simp only [List.length_cons] at hn; omega) _ _ toks h
                  simp [modeSize] at *; omega
                · exact absurd h (by simp)
            · exact absurd h (by simp)
          · have := ih cs (by omega) _ 0 toks h; simp [modeSize] at this; omega

theorem memberValue_size (t : Tok) (value : String) (h : memberValue t = some value) :
    value.length + 1 ≤ tokSize [t] := by
  cases t <;> simp [memberValue] at h <;> subst h <;> simp [tokSize, String.length]

theorem members_size (n : Nat) : ∀ (toks : List Tok), toks.length ≤ n →
    ∀ (acc out : Bag), members toks acc = some out →
      bagSize out ≤ bagSize acc + tokSize toks := by
  induction n with
  | zero =>
    intro toks hn acc out h
    have : toks = [] := List.length_eq_zero.mp (Nat.le_zero.mp hn)
    subst this
    simp [members] at h
  | succ n ih =>
    intro toks hn acc out h
    rw [members.eq_def] at h
    split at h
    · rename_i k t rest
      split at h
      · rename_i value hv
        have h1 := ih rest (by simp only [List.length_cons] at hn; omega) _ out h
        have h2 := memberValue_size t value hv
        cases t <;> simp [tokSize, bagSize] at * <;> omega
      · exact absurd h (by simp)
    · rename_i k t
      split at h
      · rename_i value hv
        have h2 := memberValue_size t value hv
        simp only [Option.some.injEq] at h
        subst h
        cases t <;> simp [tokSize, bagSize] at * <;> omega
      · exact absurd h (by simp)
    · exact absurd h (by simp)

/-- Every successful decoding yields a bag whose values are, together, strictly shorter than
the decoded text. -/
theorem jsonUnmarshal_shrinks (data : String) (out : Bag) (h : jsonUnmarshal data = some out) :
    bagSize out < data.length := by
  unfold jsonUnmarshal at h
  have hlen : data.length = data.data.length := rfl
  cases hs : scan none 0 data.data with
  | none => simp [hs] at h
  | some toks =>
    have h1 := scan_size _ _ (le_refl _) _ _ _ hs
    simp only [modeSize] at h1
    rw [hs] at h
    match toks, h, h1 with
    | [Tok.null], h, h1 =>
      simp only [Option.some.injEq] at h
      subst h
      simp only [tokSize] at h1
      simp only [bagSize]
      omega
    | [Tok.lbrace, Tok.rbrace], h, h1 =>
      simp only [Option.some.injEq] at h
      subst h
      simp only [tokSize] at h1
      simp only [bagSize]
      omega
    | Tok.lbrace :: Tok.str k :: rest, h, h1 =>
      have h2 := members_size _ _ (le_refl _) [] out h
      simp only [tokSize, bagSize] at h1 h2
      omega
    | Tok.lbrace :: Tok.lbrace :: rest, h, h1 => simp [members] at h
    | Tok.lbrace :: Tok.rbrace :: _ :: rest, h, h1 => simp [members] at h
    | Tok.lbrace :: Tok.colon :: rest, h, h1 => simp [members] at h
    | Tok.lbrace :: Tok.comma :: rest, h, h1 => simp [members] at h
    | Tok.lbrace :: Tok.null :: rest, h, h1 => simp [members] at h
    | [Tok.lbrace], h, h1 => simp [members] at h
    | [], h, h1 => simp at h
    | Tok.null :: _ :: rest, h, h1 => simp at h
    | Tok.rbrace :: rest, h, h1 => simp at h
    | Tok.colon :: rest, h, h1 => simp at h
    | Tok.comma :: rest, h, h1 => simp at h
    | Tok.str _ :: rest, h, h1 => simp at h

/-! ## Frame properties of one iteration -/

theorem set_same {α : Type} (fs : List α) (i : Nat) (f : α)
    (h : fs[i]? = some f) : fs.set i f = fs := by
  apply List.ext_getElem?
  intro j
  by_cases hj : i = j
  · subst hj
    rw [List.getElem?_set_self]
    · exact h.symm
    · exact (List.getElem?_eq_some.mp h).1
  · rw [List.getElem?_set_ne hj]

/-- A successful iteration changes the field it handles and nothing else, and keeps its
kind. -/
theorem setField_ok_frame (pf : ParseFloat) (self : Value → Bag → Outcome)
    (hself : NeverFillsNested self) (fs : List (String × Value)) (i : Nat) (name : String)
    (fv : Value) (value : String) (w : Value) (hget : fs[i]? = some (name, fv))
    (h : setField pf self fs i name fv value = Outcome.ok w) :
    ∃ x, w = Value.struct (fs.set i (name, x)) ∧ x.tag = fv.tag := by
  cases fv with
  | str s =>
    simp only [setField, Outcome.ok.injEq] at h
    exact ⟨_, h.symm, rfl⟩
  | int k n =>
    simp only [setField] at h
    split_ifs at h
    · split at h
      · exact absurd h (by simp)
      · simp only [Outcome.ok.injEq] at h
        exact ⟨_, h.symm, rfl⟩
    · simp only [Outcome.ok.injEq] at h
      exact ⟨Value.int k n, by rw [set_same fs i _ hget]; exact h.symm, rfl⟩
  | uint k n =>
    simp only [setField] at h
    split_ifs at h
    · split at h <;> exact absurd h (by simp)
    · simp only [Outcome.ok.injEq] at h
      exact ⟨Value.uint k n, by rw [set_same fs i _ hget]; exact h.symm, rfl⟩
  | float k x =>
    simp only [setField] at h
    split at h
    · exact absurd h (by simp)
    · simp only [Outcome.ok.injEq] at h
      exact ⟨_, h.symm, rfl⟩
  | bool b =>
    simp only [setField, Outcome.ok.injEq] at h
    exact ⟨_, h.symm, rfl⟩
  | ptr target =>
    simp only [setField] at h
    split at h
    · exact absurd h (by simp)
    · split at h
      · exact absurd h (by simp)
      · split at h
        · simp only [Outcome.ok.injEq] at h
          exact ⟨_, h.symm, rfl⟩
        · exact absurd h (by simp)
        · exact absurd h (by simp)
        · exact absurd h (by simp)
  | struct inner =>
    simp only [setField] at h
    split at h
    · exact absurd h (by simp)
    · exact absurd h (hself fs _ w ⟨i, name, inner, Nat.zero_le _, hget⟩)
  | other =>
    simp only [setField, Outcome.ok.injEq] at h
    exact ⟨Value.other, by rw [set_same fs i _ hget]; exact h.symm, rfl⟩
  | roStr s => simp [setField] at h
  | roInt k n =>
    simp only [setField] at h
    split_ifs at h
    · split at h <;> exact absurd h (by simp)
    · simp only [Outcome.ok.injEq] at h
      exact ⟨Value.roInt k n, by rw [set_same fs i _ hget]; exact h.symm, rfl⟩
  | roUint k n =>
    simp only [setField] at h
    split_ifs at h
    · split at h <;> exact absurd h (by simp)
    · simp only [Outcome.ok.injEq] at h
      exact ⟨Value.roUint k n, by rw [set_same fs i _ hget]; exact h.symm, rfl⟩
  | roFloat k x =>
    simp only [setField] at h
    split at h <;> exact absurd h (by simp)
  | roBool b => simp [setField] at h
  | roPtr target =>
    simp only [setField] at h
    split at h
    · exact absurd h (by simp)
    · split at h
      · exact absurd h (by simp)
      · split at h
        · simp only [Outcome.ok.injEq] at h
          exact ⟨_, h.symm, rfl⟩
        · exact absurd h (by simp)
        · exact absurd h (by simp)
        · exact absurd h (by simp)

/-- An iteration on a by-value struct field does not succeed when the recursive call never
fills a record that has such a field. -/
theorem setField_struct_not_ok (pf : ParseFloat) (self : Value → Bag → Outcome)
    (hself : NeverFillsNested self) (fs : List (String × Value)) (i : Nat) (name : String)
    (inner : List (String × Value)) (value : String) (w : Value)
    (hget : fs[i]? = some (name, Value.struct inner)) :
    setField pf self fs i name (Value.struct inner) value ≠ Outcome.ok w := by
  intro h
  simp only [setField] at h
  split at h
  · exact absurd h (by simp)
  · exact absurd h (hself fs _ w ⟨i, name, inner, Nat.zero_le _, hget⟩)

/-- The loop does not succeed when a by-value struct field is still to be handled. -/
theorem setFieldsFrom_nested_not_ok (pf : ParseFloat) (self : Value → Bag → Outcome)
    (hself : NeverFillsNested self) (params : Bag) :
    ∀ (remaining i : Nat) (fs : List (String × Value)) (w : Value),
      i + remaining = fs.length → HasStructFrom i fs →
      setFieldsFrom pf self params remaining i fs ≠ Outcome.ok w := by
  intro remaining
  induction remaining with
  | zero =>
    intro i fs w hlen ⟨j, name, inner, hij, hj⟩ _
    have := (List.getElem?_eq_some.mp hj).1
    omega
  | succ r ih =>
    intro i fs w hlen hs h
    obtain ⟨j, sname, inner, hij, hj⟩ := hs
    simp only [setFieldsFrom] at h
    split at h
    · exact absurd h (by simp)
    · rename_i name fv hget
      split at h
      · rename_i w1 hstep
        obtain ⟨x, hw1, htag⟩ := setField_ok_frame pf self hself fs i name fv _ w1 hget hstep
        subst hw1
        have hne : i ≠ j := by
          intro hij2
          subst hij2
          rw [hget] at hj
          simp only [Option.some.injEq, Prod.mk.injEq] at hj
          obtain ⟨_, hfv⟩ := hj
          subst hfv
          exact setField_struct_not_ok pf self hself fs i name inner _ _ hget hstep
        refine ih (i + 1) _ w ?_ ⟨j, sname, inner, by omega, ?_⟩ h
        · simp only [Value.fields, List.length_set]; omega
        · simp only [Value.fields]
          rw [List.getElem?_set_ne hne]
          exact hj
      · rename_i hnot
        exact hnot _ h

/-- No call of `setFields` fills a record that has a by-value struct field. -/
theorem setFields_neverFillsNested (pf : ParseFloat) (fuel : Nat) :
    NeverFillsNested (setFields pf fuel) := by
  induction fuel with
  | zero =>
    intro fs params w _ h
    simp [setFields] at h
  | succ fuel ih =>
    intro fs params w hs h
    simp only [setFields] at h
    exact setFieldsFrom_nested_not_ok pf _ ih params fs.length 0 fs w (by simp) hs h

/-! ## Fuel -/

/-- An iteration does not depend on how the recursive call behaves on bags larger than the
value it decodes. -/
theorem setField_fuel (pf : ParseFloat) (s1 s2 : Value → Bag → Outcome) (bound : Nat)
    (hs : ∀ v b, bagSize b < bound → s1 v b = s2 v b ∧ s1 v b ≠ Outcome.outOfFuel)
    (fs : List (String × Value)) (i : Nat) (name : String) (fv : Value) (value : String)
    (hv : value.length ≤ bound) :
    setField pf s1 fs i name fv value = setField pf s2 fs i name fv value ∧
      setField pf s1 fs i name fv value ≠ Outcome.outOfFuel := by
  cases fv with
  | str s => simp [setField]
  | int k n =>
    simp only [setField, true_and]
    split_ifs
    · split <;> simp
    · simp
  | uint k n =>
    simp only [setField, true_and]
    split_ifs
    · split <;> simp
    · simp
  | float k x =>
    simp only [setField, true_and]
    split <;> simp
  | bool b => simp [setField]
  | ptr target =>
    simp only [setField]
    cases hd : jsonUnmarshal value with
    | none => simp
    | some internalValues =>
      have hlt := jsonUnmarshal_shrinks value internalValues hd
      cases target with
      | none => simp
      | some internalV =>
        obtain ⟨he, hne⟩ := hs internalV internalValues (by omega)
        simp only []
        rw [← he]
        refine ⟨rfl, ?_⟩
        cases hr : s1 internalV internalValues with
        | ok w => simp
        | error w e => simp
        | panic => simp
        | outOfFuel => exact absurd hr hne
  | struct inner =>
    simp only [setField]
    cases hd : jsonUnmarshal value with
    | none => simp
    | some internalValues =>
      have hlt := jsonUnmarshal_shrinks value internalValues hd
      exact hs _ internalValues (by omega)
  | other => simp [setField]
  | roStr s => simp [setField]
  | roInt k n =>
    simp only [setField, true_and]
    split_ifs
    · split <;> simp
    · simp
  | roUint k n =>
    simp only [setField, true_and]
    split_ifs
    · split <;> simp
    · simp
  | roFloat k x =>
    simp only [setField, true_and]
    split <;> simp
  | roBool b => simp [setField]
  | roPtr target =>
    simp only [setField]
    cases hd : jsonUnmarshal value with
    | none => simp
    | some internalValues =>
      have hlt := jsonUnmarshal_shrinks value internalValues hd
      cases target with
      | none => simp
      | some internalV =>
        obtain ⟨he, hne⟩ := hs internalV internalValues (by omega)
        simp only []
        rw [← he]
        refine ⟨rfl, ?_⟩
        cases hr : s1 internalV internalValues with
        | ok w => simp
        | error w e => simp
        | panic => simp
        | outOfFuel => exact absurd hr hne

theorem setFieldsFrom_fuel (pf : ParseFloat) (s1 s2 : Value → Bag → Outcome) (params : Bag)
    (hs : ∀ v b, bagSize b < bagSize params → s1 v b = s2 v b ∧ s1 v b ≠ Outcome.outOfFuel) :
    ∀ (remaining i : Nat) (fs : List (String × Value)),
      setFieldsFrom pf s1 params remaining i fs = setFieldsFrom pf s2 params remaining i fs ∧
        setFieldsFrom pf s1 params remaining i fs ≠ Outcome.outOfFuel := by
  intro remaining
  induction remaining with
  | zero => intro i fs; simp [setFieldsFrom]
  | succ r ih =>
    intro i fs
    simp only [setFieldsFrom]
    cases hget : fs[i]? with
    | none => simp
    | some f =>
      obtain ⟨name, fv⟩ := f
      obtain ⟨he, hne⟩ := setField_fuel pf s1 s2 (bagSize params) hs fs i name fv
        (params.get name) (Bag.get_length_le params name)
      simp only []
      rw [← he]
      cases hr : setField pf s1 fs i name fv (params.get name) with
      | ok w => exact ih (i + 1) w.fields
      | error w e => simp
      | panic => simp
      | outOfFuel => exact absurd hr hne

/-- With more fuel than `bagSize params` the result of `setFields` is a result of the code
(not the model running out of fuel), and it is the same for any such amount. -/
theorem setFields_fuel (pf : ParseFloat) :
    ∀ (fuel1 fuel2 : Nat) (v : Value) (params : Bag),
      bagSize params < fuel1 → bagSize params < fuel2 →
      setFields pf fuel1 v params = setFields pf fuel2 v params ∧
        setFields pf fuel1 v params ≠ Outcome.outOfFuel := by
  intro fuel1
  induction fuel1 with
  | zero => intro fuel2 v params h1; omega
  | succ f1 ih =>
    intro fuel2 v params h1 h2
    cases fuel2 with
    | zero => omega
    | succ f2 =>
      cases v with
      | struct fs =>
        simp only [setFields]
        exact setFieldsFrom_fuel pf _ _ params
          (fun v b hb => ih f2 v b (by omega) (by omega)) fs.length 0 fs
      | _ => simp [setFields]

/-- Totality: `bagSize params + 1` units of fuel are enough, for every value and bag. -/
theorem setFields_total (pf : ParseFloat) (fuel : Nat) (v : Value) (params : Bag)
    (h : bagSize params < fuel) :
    setFields pf fuel v params = setFields pf (bagSize params + 1) v params ∧
      setFields pf fuel v params ≠ Outcome.outOfFuel :=
  setFields_fuel pf fuel (bagSize params + 1) v params h (Nat.lt_succ_self _)

/-! ## Keys that are no field name -/

theorem names_set (fs : List (String × Value)) (i : Nat) (name : String) (fv x : Value)
    (hget : fs[i]? = some (name, fv)) :
    (fs.set i (name, x)).map Prod.fst = fs.map Prod.fst := by
  rw [List.map_set]
  apply set_same
  rw [List.getElem?_map, hget]
  rfl

theorem name_mem_of_getElem? (fs : List (String × Value)) (i : Nat) (name : String)
    (fv : Value) (hget : fs[i]? = some (name, fv)) : name ∈ fs.map Prod.fst := by
  obtain ⟨hlt, heq⟩ := List.getElem?_eq_some.mp hget
  exact List.mem_map.mpr ⟨(name, fv), heq ▸ List.getElem_mem hlt, rfl⟩

theorem setFieldsFrom_agree (pf : ParseFloat) (self : Value → Bag → Outcome)
    (hself : NeverFillsNested self) (b1 b2 : Bag) :
    ∀ (remaining i : Nat) (fs : List (String × Value)),
      (∀ k ∈ fs.map Prod.fst, b1.get k = b2.get k) →
      setFieldsFrom pf self b1 remaining i fs = setFieldsFrom pf self b2 remaining i fs := by
  intro remaining
  induction remaining with
  | zero => intro i fs _; simp [setFieldsFrom]
  | succ r ih =>
    intro i fs hagree
    simp only [setFieldsFrom]
    cases hget : fs[i]? with
    | none => rfl
    | some f =>
      obtain ⟨name, fv⟩ := f
      simp only []
      rw [← hagree name (name_mem_of_getElem? fs i name fv hget)]
      cases hr : setField pf self fs i name fv (b1.get name) with
      | ok w =>
        obtain ⟨x, hw, _⟩ := setField_ok_frame pf self hself fs i name fv _ w hget hr
        subst hw
        simp only [Value.fields]
        apply ih
        rw [names_set fs i name fv x hget]
        exact hagree
      | error w e => rfl
      | panic => rfl
      | outOfFuel => rfl

/-! ## The scalar cases -/

/-- An iteration whose field converts succeeds and stores the converted value. -/
theorem setField_converts (pf : ParseFloat) (self : Value → Bag → Outcome)
    (fs : List (String × Value)) (i : Nat) (name : String) (fv : Value) (value : String)
    (hget : fs[i]? = some (name, fv)) (hc : converts pf fv value = true) :
    setField pf self fs i name fv value =
      Outcome.ok (Value.struct (fs.set i (name, convert pf fv value))) := by
  cases fv with
  | str s => rfl
  | int k n =>
    simp only [converts, Bool.or_eq_true, Bool.not_eq_true'] at hc
    simp only [setField, convert]
    cases hk : k.inCase with
    | false => simp [set_same fs i _ hget]
    | true =>
      rcases hc with hc | hc
      · rw [hk] at hc; exact absurd hc (by simp)
      · obtain ⟨num, hnum⟩ := Option.isSome_iff_exists.mp hc
        simp [hnum]
  | uint k n =>
    simp only [converts, Bool.not_eq_true'] at hc
    simp [setField, convert, hc, set_same fs i _ hget]
  | float k x =>
    simp only [converts] at hc
    obtain ⟨num, hnum⟩ := Option.isSome_iff_exists.mp hc
    simp [setField, convert, hnum]
  | bool b => rfl
  | ptr target => simp [converts] at hc
  | struct inner => simp [converts] at hc
  | other => simp [setField, convert, set_same fs i _ hget]
  | roStr s => simp [converts] at hc
  | roInt k n =>
    simp only [converts, Bool.not_eq_true'] at hc
    simp [setField, convert, hc, set_same fs i _ hget]
  | roUint k n =>
    simp only [converts, Bool.not_eq_true'] at hc
    simp [setField, convert, hc, set_same fs i _ hget]
  | roFloat k x => simp [converts] at hc
  | roBool b => simp [converts] at hc
  | roPtr target => simp [converts] at hc

/-- A successful iteration on a field that is no pointer stores the converted value. -/
theorem setField_ok_value (pf : ParseFloat) (self : Value → Bag → Outcome)
    (hself : NeverFillsNested self) (fs : List (String × Value)) (i : Nat) (name : String)
    (fv : Value) (value : String) (w : Value) (hget : fs[i]? = some (name, fv))
    (hptr : fv.tag ≠ Tag.ptr) (h : setField pf self fs i name fv value = Outcome.ok w) :
    w = Value.struct (fs.set i (name, convert pf fv value)) ∧ converts pf fv value = true := by
  cases fv with
  | str s =>
    simp only [setField, Outcome.ok.injEq] at h
    exact ⟨h.symm, rfl⟩
  | int k n =>
    simp only [setField] at h
    simp only [convert, converts]
    cases hk : k.inCase with
    | false =>
      simp only [hk, Bool.false_eq_true, if_false, Outcome.ok.injEq] at h
      simp [set_same fs i _ hget, h]
    | true =>
      simp only [hk, if_true] at h
      cases ha : atoi value with
      | none => simp [ha] at h
      | some num =>
        simp only [ha, Outcome.ok.injEq] at h
        simp [h]
  | uint k n =>
    simp only [setField] at h
    simp only [convert, converts]
    cases hk : k.inCase with
    | false =>
      simp only [hk, Bool.false_eq_true, if_false, Outcome.ok.injEq] at h
      simp [set_same fs i _ hget, h]
    | true =>
      simp only [hk, if_true] at h
      cases ha : atoi value <;> simp [ha] at h
  | float k x =>
    simp only [setField] at h
    simp only [convert, converts]
    cases ha : pf k.bitSize value with
    | none => simp [ha] at h
    | some num =>
      simp only [ha, Outcome.ok.injEq] at h
      simp [h]
  | bool b =>
    simp only [setField, Outcome.ok.injEq] at h
    exact ⟨h.symm, rfl⟩
  | ptr target => exact absurd rfl hptr
  | struct inner => exact absurd h (setField_struct_not_ok pf self hself fs i name inner _ _ hget)
  | other =>
    simp only [setField, Outcome.ok.injEq] at h
    simp [convert, converts, set_same fs i _ hget, h]
  | roStr s => simp [setField] at h
  | roInt k n =>
    simp only [setField] at h
    simp only [convert, converts]
    cases hk : k.inCase with
    | false =>
      simp only [hk, Bool.false_eq_true, if_false, Outcome.ok.injEq] at h
      simp [set_same fs i _ hget, h]
    | true =>
      simp only [hk, if_true] at h
      cases ha : atoi value <;> simp [ha] at h
  | roUint k n =>
    simp only [setField] at h
    simp only [convert, converts]
    cases hk : k.inCase with
    | false =>
      simp only [hk, Bool.false_eq_true, if_false, Outcome.ok.injEq] at h
      simp [set_same fs i _ hget, h]
    | true =>
      simp only [hk, if_true] at h
      cases ha : atoi value <;> simp [ha] at h
  | roFloat k x =>
    simp only [setField] at h
    split at h <;> exact absurd h (by simp)
  | roBool b => simp [setField] at h
  | roPtr target => exact absurd rfl hptr

/-- When the loop succeeds, the fields before its starting position are as they were, and
every later field that is no pointer holds the value converted from the bag. -/
theorem setFieldsFrom_ok_frame (pf : ParseFloat) (self : Value → Bag → Outcome)
    (hself : NeverFillsNested self) (params : Bag) :
    ∀ (remaining i : Nat) (fs : List (String × Value)) (w : Value),
      i + remaining = fs.length →
      setFieldsFrom pf self params remaining i fs = Outcome.ok w →
      ∃ fs', w = Value.struct fs' ∧ fs'.length = fs.length ∧
        (∀ j, j < i → fs'[j]? = fs[j]?) ∧
        (∀ j name fv, i ≤ j → fs[j]? = some (name, fv) → fv.tag ≠ Tag.ptr →
          fs'[j]? = some (name, convert pf fv (params.get name)) ∧
            converts pf fv (params.get name) = true) := by
  intro remaining
  induction remaining with
  | zero =>
    intro i fs w hlen h
    simp only [setFieldsFrom, Outcome.ok.injEq] at h
    refine ⟨fs, h.symm, rfl, fun _ _ => rfl, ?_⟩
    intro j name fv hij hj _
    have := (List.getElem?_eq_some.mp hj).1
    omega
  | succ r ih =>
    intro i fs w hlen h
    simp only [setFieldsFrom] at h
    split at h
    · exact absurd h (by simp)
    · rename_i name fv hget
      split at h
      · rename_i w1 hstep
        obtain ⟨x, hw1, htag⟩ := setField_ok_frame pf self hself fs i name fv _ w1 hget hstep
        subst hw1
        simp only [Value.fields] at h
        obtain ⟨fs', hw, hlen', hbefore, hafter⟩ :=
          ih (i + 1) _ w (by simp only [List.length_set]; omega) h
        refine ⟨fs', hw, by simpa using hlen', ?_, ?_⟩
        · intro j hj
          rw [hbefore j (by omega), List.getElem?_set_ne (by omega)]
        · intro j jname jfv hij hj hptr
          by_cases hji : j = i
          · subst hji
            rw [hget] at hj
            simp only [Option.some.injEq, Prod.mk.injEq] at hj
            obtain ⟨rfl, rfl⟩ := hj
            obtain ⟨hval, hconv⟩ :=
              setField_ok_value pf self hself fs j name fv _ _ hget hptr hstep
            simp only [Value.struct.injEq] at hval
            refine ⟨?_, hconv⟩
            rw [hbefore j (by omega), hval, List.getElem?_set_self]
            exact (List.getElem?_eq_some.mp hget).1
          · apply hafter j jname jfv (by omega) _ hptr
            rw [List.getElem?_set_ne (by omega)]
            exact hj
      · rename_i hnot
        exact absurd h (hnot _)

/-! ## Runs over a prefix of the fields -/

/-- An iteration whose value fails conversion or decoding returns the error and leaves the
record as it was. -/
theorem setField_fails (pf : ParseFloat) (self : Value → Bag → Outcome)
    (fs : List (String × Value)) (i : Nat) (name : String) (fv : Value) (value : String)
    (hf : conversionFails pf fv value = true) :
    setField pf self fs i name fv value = Outcome.error (Value.struct fs) (failure fv value) := by
  cases fv with
  | str s => simp [conversionFails] at hf
  | int k n =>
    simp only [conversionFails, Bool.and_eq_true, Option.isNone_iff_eq_none] at hf
    simp [setField, failure, hf.1, hf.2]
  | uint k n =>
    simp only [conversionFails, Bool.and_eq_true, Option.isNone_iff_eq_none] at hf
    simp [setField, failure, hf.1, hf.2]
  | float k x =>
    simp only [conversionFails, Option.isNone_iff_eq_none] at hf
    simp [setField, failure, hf]
  | bool b => simp [conversionFails] at hf
  | ptr target =>
    simp only [conversionFails, Option.isNone_iff_eq_none] at hf
    simp [setField, failure, hf]
  | struct inner =>
    simp only [conversionFails, Option.isNone_iff_eq_none] at hf
    simp [setField, failure, hf]
  | other => simp [conversionFails] at hf
  | roStr s => simp [conversionFails] at hf
  | roInt k n =>
    simp only [conversionFails, Bool.and_eq_true, Option.isNone_iff_eq_none] at hf
    simp [setField, failure, hf.1, hf.2]
  | roUint k n =>
    simp only [conversionFails, Bool.and_eq_true, Option.isNone_iff_eq_none] at hf
    simp [setField, failure, hf.1, hf.2]
  | roFloat k x =>
    simp only [conversionFails, Option.isNone_iff_eq_none] at hf
    simp [setField, failure, hf]
  | roBool b => simp [conversionFails] at hf
  | roPtr target =>
    simp only [conversionFails, Option.isNone_iff_eq_none] at hf
    simp [setField, failure, hf]

/-- The loop over fields that all convert stores the converted values, one after the
other, and goes on with the fields that follow. -/
theorem setFieldsFrom_converts (pf : ParseFloat) (self : Value → Bag → Outcome) (params : Bag)
    (r : Nat) (rest : List (String × Value)) :
    ∀ (todo done : List (String × Value)),
      (∀ f ∈ todo, converts pf f.2 (params.get f.1) = true) →
      setFieldsFrom pf self params (todo.length + r) done.length (done ++ todo ++ rest) =
        setFieldsFrom pf self params r (done.length + todo.length)
          (done ++ todo.map (convertField pf params) ++ rest) := by
  intro todo
  induction todo with
  | nil => intro done _; simp
  | cons f todo ih =>
    intro done hc
    obtain ⟨name, fv⟩ := f
    have hlen : (((name, fv) :: todo).length + r) = (todo.length + r) + 1 := by
      simp only [List.length_cons]; omega
    have hget : (done ++ (name, fv) :: todo ++ rest)[done.length]? = some (name, fv) := by
      rw [List.append_assoc, List.getElem?_append_right (le_refl _)]
      simp
    rw [hlen]
    simp only [setFieldsFrom, hget]
    rw [setField_converts pf self _ _ name fv _ hget
      (hc (name, fv) (List.mem_cons_self _ _))]
    simp only [Value.fields]
    have hset : (done ++ (name, fv) :: todo ++ rest).set done.length
        (name, convert pf fv (params.get name)) =
        (done ++ [convertField pf params (name, fv)]) ++ todo ++ rest := by
      simp [convertField]
    rw [hset]
    have := ih (done ++ [convertField pf params (name, fv)])
      (fun f hf => hc f (List.mem_cons_of_mem _ hf))
    simp only [List.length_append, List.length_singleton] at this
    rw [this]
    simp only [List.map_cons, List.length_cons, List.append_assoc, List.singleton_append]
    congr 1
    omega

/-- A successful iteration on a record is the same iteration on the record followed by
further fields. -/
theorem setField_append_ok (pf : ParseFloat) (self : Value → Bag → Outcome)
    (hself : NeverFillsNested self) (A B : List (String × Value)) (j : Nat) (name : String)
    (fv : Value) (value : String) (w : Value) (hget : A[j]? = some (name, fv))
    (h : setField pf self A j name fv value = Outcome.ok w) :
    ∃ x, w = Value.struct (A.set j (name, x)) ∧
      setField pf self (A ++ B) j name fv value =
        Outcome.ok (Value.struct (A.set j (name, x) ++ B)) := by
  have hlt : j < A.length := (List.getElem?_eq_some.mp hget).1
  cases fv with
  | str s =>
    simp only [setField, Outcome.ok.injEq] at h
    exact ⟨_, h.symm, by simp only [setField, List.set_append_left _ _ hlt]⟩
  | int k n =>
    simp only [setField] at h ⊢
    cases hk : k.inCase with
    | false =>
      simp only [hk, Bool.false_eq_true, if_false, Outcome.ok.injEq] at h ⊢
      exact ⟨Value.int k n, by rw [set_same A j _ hget]; exact h.symm,
        by rw [set_same A j _ hget]⟩
    | true =>
      simp only [hk, if_true] at h ⊢
      cases ha : atoi value with
      | none => simp [ha] at h
      | some num =>
        simp only [ha, Outcome.ok.injEq] at h ⊢
        exact ⟨_, h.symm, by rw [List.set_append_left _ _ hlt]⟩
  | uint k n =>
    simp only [setField] at h ⊢
    cases hk : k.inCase with
    | false =>
      simp only [hk, Bool.false_eq_true, if_false, Outcome.ok.injEq] at h ⊢
      exact ⟨Value.uint k n, by rw [set_same A j _ hget]; exact h.symm,
        by rw [set_same A j _ hget]⟩
    | true =>
      simp only [hk, if_true] at h
      cases ha : atoi value <;> simp [ha] at h
  | float k x =>
    simp only [setField] at h ⊢
    cases ha : pf k.bitSize value with
    | none => simp [ha] at h
    | some num =>
      simp only [ha, Outcome.ok.injEq] at h ⊢
      exact ⟨_, h.symm, by rw [List.set_append_left _ _ hlt]⟩
  | bool b =>
    simp only [setField, Outcome.ok.injEq] at h
    exact ⟨_, h.symm, by simp only [setField, List.set_append_left _ _ hlt]⟩
  | ptr target =>
    simp only [setField] at h ⊢
    cases hd : jsonUnmarshal value with
    | none => simp [hd] at h
    | some internalValues =>
      simp only [hd] at h ⊢
      cases target with
      | none => simp at h
      | some internalV =>
        simp only [] at h ⊢
        cases hr : self internalV internalValues with
        | ok w' =>
          simp only [hr, Outcome.ok.injEq] at h ⊢
          exact ⟨_, h.symm, by rw [List.set_append_left _ _ hlt]⟩
        | error w' e => simp [hr] at h
        | panic => simp [hr] at h
        | outOfFuel => simp [hr] at h
  | struct inner =>
    exact absurd h (setField_struct_not_ok pf self hself A j name inner _ _ hget)
  | other =>
    simp only [setField, Outcome.ok.injEq] at h ⊢
    exact ⟨Value.other, by rw [set_same A j _ hget]; exact h.symm,
      by rw [set_same A j _ hget]⟩
  | roStr s => simp [setField] at h
  | roInt k n =>
    simp only [setField] at h ⊢
    cases hk : k.inCase with
    | false =>
      simp only [hk, Bool.false_eq_true, if_false, Outcome.ok.injEq] at h ⊢
      exact ⟨Value.roInt k n, by rw [set_same A j _ hget]; exact h.symm,
        by rw [set_same A j _ hget]⟩
    | true =>
      simp only [hk, if_true] at h
      cases ha : atoi value <;> simp [ha] at h
  | roUint k n =>
    simp only [setField] at h ⊢
    cases hk : k.inCase with
    | false =>
      simp only [hk, Bool.false_eq_true, if_false, Outcome.ok.injEq] at h ⊢
      exact ⟨Value.roUint k n, by rw [set_same A j _ hget]; exact h.symm,
        by rw [set_same A j _ hget]⟩
    | true =>
      simp only [hk, if_true] at h
      cases ha : atoi value <;> simp [ha] at h
  | roFloat k x =>
    simp only [setField] at h
    split at h <;> exact absurd h (by simp)
  | roBool b => simp [setField] at h
  | roPtr target =>
    simp only [setField] at h ⊢
    cases hd : jsonUnmarshal value with
    | none => simp [hd] at h
    | some internalValues =>
      simp only [hd] at h ⊢
      cases target with
      | none => simp at h
      | some internalV =>
        simp only [] at h ⊢
        cases hr : self internalV internalValues with
        | ok w' =>
          simp only [hr, Outcome.ok.injEq] at h ⊢
          exact ⟨_, h.symm, by rw [List.set_append_left _ _ hlt]⟩
        | error w' e => simp [hr] at h
        | panic => simp [hr] at h
        | outOfFuel => simp [hr] at h

/-- A loop that fills a record fills it in the same way when further fields follow, and
then goes on with those. -/
theorem setFieldsFrom_append (pf : ParseFloat) (self : Value → Bag → Outcome)
    (hself : NeverFillsNested self) (params : Bag) (B : List (String × Value)) (m : Nat) :
    ∀ (r k : Nat) (A A' : List (String × Value)), k + r = A.length →
      setFieldsFrom pf self params r k A = Outcome.ok (Value.struct A') →
      setFieldsFrom pf self params (r + m) k (A ++ B) =
        setFieldsFrom pf self params m A.length (A' ++ B) := by
  intro r
  induction r with
  | zero =>
    intro k A A' hlen h
    simp only [setFieldsFrom, Outcome.ok.injEq, Value.struct.injEq] at h
    subst h
    have : k = A.length := by omega
    subst this
    simp
  | succ r ih =>
    intro k A A' hlen h
    have hrm : r + 1 + m = (r + m) + 1 := by omega
    rw [hrm]
    simp only [setFieldsFrom] at h ⊢
    cases hget : A[k]? with
    | none => simp [hget] at h
    | some f =>
      obtain ⟨name, fv⟩ := f
      have hlt : k < A.length := (List.getElem?_eq_some.mp hget).1
      have hgetB : (A ++ B)[k]? = some (name, fv) := by
        rw [List.getElem?_append_left hlt]; exact hget
      simp only [hget] at h
      simp only [hgetB]
      cases hstep : setField pf self A k name fv (params.get name) with
      | ok w1 =>
        obtain ⟨x, hw1, hB⟩ :=
          setField_append_ok pf self hself A B k name fv _ w1 hget hstep
        subst hw1
        simp only [hstep, Value.fields] at h
        simp only [hB, Value.fields]
        have := ih (k + 1) _ A' (by simp only [List.length_set]; omega) h
        simpa using this
      | error w1 e => simp [hstep] at h
      | panic => simp [hstep] at h
      | outOfFuel => simp [hstep] at h

/-! ## Signed integer fields -/

/-- The narrowing of `SetInt` leaves an integer that fits the width as it is. -/
theorem wrapInt_of_fits (bits : Nat) (x : Int) (hb : 0 < bits)
    (hlo : -(2 ^ (bits - 1) : Int) ≤ x) (hhi : x < 2 ^ (bits - 1)) : wrapInt bits x = x := by
  unfold wrapInt
  have hpow : (2 : Int) ^ bits = 2 * 2 ^ (bits - 1) := by
    obtain ⟨b, rfl⟩ : ∃ b, bits = b + 1 := ⟨bits - 1, by omega⟩
    simp [pow_succ, mul_comm]
  rw [Int.emod_eq_of_lt (by omega) (by omega)]
  omega

/-- For the signed kinds listed in the integer case (`int8` to `int64`) the field reads
back as the integer the string denotes, when that integer fits the width. -/
theorem signed_field_round_trip (pf : ParseFloat) (fuel : Nat) (name : String) (k : IntKind)
    (old num : Int) (params : Bag) (hk : k.inCase = true)
    (hparse : atoi (params.get name) = some num)
    (hlo : -(2 ^ (k.bits - 1) : Int) ≤ num) (hhi : num < 2 ^ (k.bits - 1)) :
    setFields pf (fuel + 1) (Value.struct [(name, Value.int k old)]) params =
      Outcome.ok (Value.struct [(name, Value.int k num)]) := by
  have hb : 0 < k.bits := by cases k <;> simp [IntKind.bits]
  simp [setFields, setFieldsFrom, setField, hk, hparse, Value.fields,
    wrapInt_of_fits k.bits num hb hlo hhi]

/-! ## No panic on calm records -/

theorem tag_struct_iff (x : Value) : x.tag = Tag.struct ↔ ∃ inner, x = Value.struct inner := by
  cases x <;> simp [Value.tag]

theorem noStructBefore_of_set (fs : List (String × Value)) (i j : Nat) (name : String)
    (fv x : Value) (hget : fs[i]? = some (name, fv)) (htag : x.tag = fv.tag)
    (h : NoStructBefore j (fs.set i (name, x))) : NoStructBefore j fs := by
  intro j' n' inner' hlt hget'
  have hilt : i < fs.length := (List.getElem?_eq_some.mp hget).1
  by_cases hji : j' = i
  · subst hji
    rw [hget] at hget'
    simp only [Option.some.injEq, Prod.mk.injEq] at hget'
    obtain ⟨rfl, rfl⟩ := hget'
    obtain ⟨inner2, rfl⟩ := (tag_struct_iff x).mp (by rw [htag]; rfl)
    exact h j' name inner2 hlt (by rw [List.getElem?_set_self hilt])
  · exact h j' n' inner' hlt (by rw [List.getElem?_set_ne (Ne.symm hji)]; exact hget')

theorem noStructBefore_succ_set (fs : List (String × Value)) (i : Nat) (name : String)
    (x : Value) (hx : x.tag ≠ Tag.struct) (h : NoStructBefore i fs) :
    NoStructBefore (i + 1) (fs.set i (name, x)) := by
  intro j' n' inner' hlt hget'
  by_cases hji : j' = i
  · subst hji
    have hlt' : j' < fs.length := by
      have := (List.getElem?_eq_some.mp hget').1
      simpa using this
    rw [List.getElem?_set_self hlt'] at hget'
    simp only [Option.some.injEq, Prod.mk.injEq] at hget'
    exact hx (by rw [hget'.2]; rfl)
  · rw [List.getElem?_set_ne (Ne.symm hji)] at hget'
    exact h j' n' inner' (by omega) hget'

theorem calmFields_set (fs : List (String × Value)) (i : Nat) (name : String) (fv x : Value)
    (hget : fs[i]? = some (name, fv)) (htag : x.tag = fv.tag) (hx : Calm x)
    (h : CalmFields fs) : CalmFields (fs.set i (name, x)) := by
  intro j n v hj hns
  have hilt : i < fs.length := (List.getElem?_eq_some.mp hget).1
  by_cases hji : j = i
  · subst hji
    rw [List.getElem?_set_self hilt] at hj
    simp only [Option.some.injEq, Prod.mk.injEq] at hj
    rw [← hj.2]
    exact hx
  · rw [List.getElem?_set_ne (Ne.symm hji)] at hj
    exact h j n v hj (noStructBefore_of_set fs i j name fv x hget htag hns)

theorem calm_convert (pf : ParseFloat) (fv : Value) (value : String) (h : Calm fv) :
    Calm (convert pf fv value) := by
  cases fv with
  | str s => exact Calm.str _
  | int k n =>
    simp only [convert]
    split_ifs
    · split <;> exact Calm.int _ _
    · exact Calm.int _ _
  | uint k n => exact h
  | float k x =>
    simp only [convert]
    split <;> exact Calm.float _ _
  | bool b => exact Calm.bool _
  | ptr target => exact h
  | struct inner => exact h
  | other => exact h
  | roStr s => exact h
  | roInt k n => exact h
  | roUint k n => exact h
  | roFloat k x => exact h
  | roBool b => exact h
  | roPtr target => exact h

theorem calm_ptr_of_calmRec (w : Value) (h : CalmRec w) : Calm (Value.ptr (some w)) := by
  obtain ⟨fs, rfl, hfs⟩ := h
  exact Calm.ptr fs hfs

theorem calmRec_of_calm_ptr (v : Value) (h : Calm (Value.ptr (some v))) : CalmRec v := by
  cases h with
  | ptr fs hfs => exact ⟨fs, rfl, hfs⟩

theorem calm_roPtr_of_calmRec (w : Value) (h : CalmRec w) : Calm (Value.roPtr (some w)) := by
  obtain ⟨fs, rfl, hfs⟩ := h
  exact Calm.roPtr fs hfs

theorem calmRec_of_calm_roPtr (v : Value) (h : Calm (Value.roPtr (some v))) : CalmRec v := by
  cases h with
  | roPtr fs hfs => exact ⟨fs, rfl, hfs⟩

/-- One iteration on a calm record: no panic; a success leaves a calm record in which the
loop can go on; an error leaves a calm record. -/
theorem setField_calm (pf : ParseFloat) (self : Value → Bag → Outcome) (hcalm : SelfCalm self)
    (hself : NeverFillsNested self) (fs : List (String × Value)) (i : Nat) (name : String)
    (fv : Value) (value : String) (hget : fs[i]? = some (name, fv)) (hfs : CalmFields fs)
    (hns : NoStructBefore i fs) :
    (setField pf self fs i name fv value).Calmly ∧
      ∀ w, setField pf self fs i name fv value = Outcome.ok w →
        ∃ fs', w = Value.struct fs' ∧ fs'.length = fs.length ∧ NoStructBefore (i + 1) fs' := by
  have hfv : Calm fv := hfs i name fv hget hns
  have hrec : CalmRec (Value.struct fs) := ⟨fs, rfl, hfs⟩
  constructor
  · cases hr : setField pf self fs i name fv value with
    | ok w =>
      obtain ⟨x, hw, htag⟩ := setField_ok_frame pf self hself fs i name fv value w hget hr
      subst hw
      refine ⟨_, rfl, calmFields_set fs i name fv x hget htag ?_ hfs⟩
      by_cases hptr : fv.tag = Tag.ptr
      · cases fv with
        | ptr target =>
          simp only [setField] at hr
          cases hd : jsonUnmarshal value with
          | none => simp [hd] at hr
          | some internalValues =>
            simp only [hd] at hr
            cases target with
            | none => simp at hr
            | some internalV =>
              simp only [] at hr
              have hiv := hcalm internalV internalValues (calmRec_of_calm_ptr _ hfv)
              cases hs : self internalV internalValues with
              | ok w' =>
                rw [hs] at hiv
                simp only [hs, Outcome.ok.injEq, Value.struct.injEq] at hr
                have hlt : i < fs.length := (List.getElem?_eq_some.mp hget).1
                have h1 : (fs.set i (name, Value.ptr (some w')))[i]? =
                    (fs.set i (name, x))[i]? := by rw [hr]
                rw [List.getElem?_set_self hlt, List.getElem?_set_self hlt] at h1
                simp only [Option.some.injEq, Prod.mk.injEq, true_and] at h1
                rw [← h1]
                exact calm_ptr_of_calmRec w' hiv
              | error w' e => simp [hs] at hr
              | panic => simp [hs] at hr
              | outOfFuel => simp [hs] at hr
        | roStr s => simp [Value.tag] at hptr
        | roInt k n => simp [Value.tag] at hptr
        | roUint k n => simp [Value.tag] at hptr
        | roFloat k x => simp [Value.tag] at hptr
        | roBool b => simp [Value.tag] at hptr
        | roPtr target =>
          simp only [setField] at hr
          cases hd : jsonUnmarshal value with
          | none => simp [hd] at hr
          | some internalValues =>
            simp only [hd] at hr
            cases target with
            | none => simp at hr
            | some internalV =>
              simp only [] at hr
              have hiv := hcalm internalV internalValues (calmRec_of_calm_roPtr _ hfv)
              cases hs : self internalV internalValues with
              | ok w' =>
                rw [hs] at hiv
                simp only [hs, Outcome.ok.injEq, Value.struct.injEq] at hr
                have hlt : i < fs.length := (List.getElem?_eq_some.mp hget).1
                have h1 : (fs.set i (name, Value.roPtr (some w')))[i]? =
                    (fs.set i (name, x))[i]? := by rw [hr]
                rw [List.getElem?_set_self hlt, List.getElem?_set_self hlt] at h1
                simp only [Option.some.injEq, Prod.mk.injEq, true_and] at h1
                rw [← h1]
                exact calm_roPtr_of_calmRec w' hiv
              | error w' e => simp [hs] at hr
              | panic => simp [hs] at hr
              | outOfFuel => simp [hs] at hr
        | _ => simp [Value.tag] at hptr
      · obtain ⟨hval, _⟩ := setField_ok_value pf self hself fs i name fv value _ hget hptr hr
        simp only [Value.struct.injEq] at hval
        have hlt : i < fs.length := (List.getElem?_eq_some.mp hget).1
        have h1 : (fs.set i (name, x))[i]? =
            (fs.set i (name, convert pf fv value))[i]? := by rw [hval]
        rw [List.getElem?_set_self hlt, List.getElem?_set_self hlt] at h1
        simp only [Option.some.injEq, Prod.mk.injEq, true_and] at h1
        rw [h1]
        exact calm_convert pf fv value hfv
    | error w e =>
      cases fv with
      | str s => simp [setField] at hr
      | int k n =>
        simp only [setField] at hr
        split_ifs at hr
        · split at hr
          · simp only [Outcome.error.injEq] at hr
            rw [← hr.1]; exact hrec
          · exact absurd hr (by simp)
      | uint k n =>
        simp only [setField] at hr
        split_ifs at hr
        · split at hr
          · simp only [Outcome.error.injEq] at hr
            rw [← hr.1]; exact hrec
          · exact absurd hr (by simp)
      | float k x =>
        simp only [setField] at hr
        split at hr
        · simp only [Outcome.error.injEq] at hr
          rw [← hr.1]; exact hrec
        · exact absurd hr (by simp)
      | bool b => simp [setField] at hr
      | ptr target =>
        simp only [setField] at hr
        cases hd : jsonUnmarshal value with
        | none =>
          simp only [hd, Outcome.error.injEq] at hr
          rw [← hr.1]; exact hrec
        | some internalValues =>
          simp only [hd] at hr
          cases target with
          | none => simp at hr
          | some internalV =>
            simp only [] at hr
            have hiv := hcalm internalV internalValues (calmRec_of_calm_ptr _ hfv)
            cases hs : self internalV internalValues with
            | ok w' => simp [hs] at hr
            | error w' e' =>
              rw [hs] at hiv
              simp only [hs, Outcome.error.injEq] at hr
              rw [← hr.1]
              exact ⟨_, rfl, calmFields_set fs i name _ _ hget rfl
                (calm_ptr_of_calmRec w' hiv) hfs⟩
            | panic => simp [hs] at hr
            | outOfFuel => simp [hs] at hr
      | struct inner =>
        simp only [setField] at hr
        cases hd : jsonUnmarshal value with
        | none =>
          simp only [hd, Outcome.error.injEq] at hr
          rw [← hr.1]; exact hrec
        | some internalValues =>
          simp only [hd] at hr
          have := hcalm (Value.struct fs) internalValues hrec
          rw [hr] at this
          exact this
      | other => simp [setField] at hr
      | roStr s => simp [setField] at hr
      | roInt k n =>
        simp only [setField] at hr
        split_ifs at hr
        · split at hr
          · simp only [Outcome.error.injEq] at hr
            rw [← hr.1]; exact hrec
          · exact absurd hr (by simp)
      | roUint k n =>
        simp only [setField] at hr
        split_ifs at hr
        · split at hr
          · simp only [Outcome.error.injEq] at hr
            rw [← hr.1]; exact hrec
          · exact absurd hr (by simp)
      | roFloat k x =>
        simp only [setField] at hr
        split at hr
        · simp only [Outcome.error.injEq] at hr
          rw [← hr.1]; exact hrec
        · exact absurd hr (by simp)
      | roBool b => simp [setField] at hr
      | roPtr target =>
        simp only [setField] at hr
        cases hd : jsonUnmarshal value with
        | none =>
          simp only [hd, Outcome.error.injEq] at hr
          rw [← hr.1]; exact hrec
        | some internalValues =>
          simp only [hd] at hr
          cases target with
          | none => simp at hr
          | some internalV =>
            simp only [] at hr
            have hiv := hcalm internalV internalValues (calmRec_of_calm_roPtr _ hfv)
            cases hs : self internalV internalValues with
            | ok w' => simp [hs] at hr
            | error w' e' =>
              rw [hs] at hiv
              simp only [hs, Outcome.error.injEq] at hr
              rw [← hr.1]
              exact ⟨_, rfl, calmFields_set fs i name _ _ hget rfl
                (calm_roPtr_of_calmRec w' hiv) hfs⟩
            | panic => simp [hs] at hr
            | outOfFuel => simp [hs] at hr
    | panic =>
      cases fv with
      | str s => simp [setField] at hr
      | int k n =>
        simp only [setField] at hr
        split_ifs at hr
        · split at hr <;> exact absurd hr (by simp)
      | uint k n =>
        cases hfv with
        | uint _ _ hk => simp [setField, hk] at hr
      | float k x =>
        simp only [setField] at hr
        split at hr <;> exact absurd hr (by simp)
      | bool b => simp [setField] at hr
      | ptr target =>
        simp only [setField] at hr
        cases hd : jsonUnmarshal value with
        | none => simp [hd] at hr
        | some internalValues =>
          simp only [hd] at hr
          cases target with
          | none => cases hfv
          | some internalV =>
            simp only [] at hr
            have hiv := hcalm internalV internalValues (calmRec_of_calm_ptr _ hfv)
            cases hs : self internalV internalValues with
            | ok w' => simp [hs] at hr
            | error w' e' => simp [hs] at hr
            | panic => rw [hs] at hiv; exact hiv
            | outOfFuel => simp [hs] at hr
      | struct inner =>
        simp only [setField] at hr
        cases hd : jsonUnmarshal value with
        | none => simp [hd] at hr
        | some internalValues =>
          simp only [hd] at hr
          have := hcalm (Value.struct fs) internalValues hrec
          rw [hr] at this
          exact this
      | other => simp [setField] at hr
      | roStr s => cases hfv
      | roInt k n =>
        cases hfv with
        | roInt _ _ hk => simp [setField, hk] at hr
      | roUint k n =>
        cases hfv with
        | roUint _ _ hk => simp [setField, hk] at hr
      | roFloat k x => cases hfv
      | roBool b => cases hfv
      | roPtr target =>
        simp only [setField] at hr
        cases hd : jsonUnmarshal value with
        | none => simp [hd] at hr
        | some internalValues =>
          simp only [hd] at hr
          cases target with
          | none => cases hfv
          | some internalV =>
            simp only [] at hr
            have hiv := hcalm internalV internalValues (calmRec_of_calm_roPtr _ hfv)
            cases hs : self internalV internalValues with
            | ok w' => simp [hs] at hr
            | error w' e' => simp [hs] at hr
            | panic => rw [hs] at hiv; exact hiv
            | outOfFuel => simp [hs] at hr
    | outOfFuel => trivial
  · intro w hr
    obtain ⟨x, hw, htag⟩ := setField_ok_frame pf self hself fs i name fv value w hget hr
    refine ⟨_, hw, by simp, ?_⟩
    apply noStructBefore_succ_set fs i name x _ hns
    rw [htag]
    intro hst
    obtain ⟨inner, rfl⟩ := (tag_struct_iff fv).mp hst
    exact setField_struct_not_ok pf self hself fs i name inner value w hget hr

theorem setFieldsFrom_calm (pf : ParseFloat) (self : Value → Bag → Outcome)
    (hcalm : SelfCalm self) (hself : NeverFillsNested self) (params : Bag) :
    ∀ (r i : Nat) (fs : List (String × Value)), i + r = fs.length → CalmFields fs →
      NoStructBefore i fs → (setFieldsFrom pf self params r i fs).Calmly := by
  intro r
  induction r with
  | zero =>
    intro i fs _ hfs _
    exact ⟨fs, rfl, hfs⟩
  | succ r ih =>
    intro i fs hlen hfs hns
    simp only [setFieldsFrom]
    have hlt : i < fs.length := by omega
    have hget : fs[i]? = some (fs[i].1, fs[i].2) := by
      rw [List.getElem?_eq_getElem hlt]
    rw [hget]
    simp only []
    obtain ⟨hc, hok⟩ := setField_calm pf self hcalm hself fs i fs[i].1 fs[i].2
      (params.get fs[i].1) hget hfs hns
    cases hr : setField pf self fs i fs[i].1 fs[i].2 (params.get fs[i].1) with
    | ok w =>
      obtain ⟨fs', hw, hlen', hns'⟩ := hok w hr
      subst hw
      rw [hr] at hc
      obtain ⟨fs2, h2, hfs2⟩ := hc
      simp only [Value.struct.injEq] at h2
      subst h2
      exact ih (i + 1) fs' (by omega) hfs2 hns'
    | error w e => rw [hr] at hc; exact hc
    | panic => rw [hr] at hc; exact hc
    | outOfFuel => trivial

/-- On a calm record `setFields` does not panic, and leaves a calm record. -/
theorem setFields_calm (pf : ParseFloat) (fuel : Nat) : SelfCalm (setFields pf fuel) := by
  induction fuel with
  | zero => intro v params _; trivial
  | succ fuel ih =>
    intro v params hv
    obtain ⟨fs, rfl, hfs⟩ := hv
    simp only [setFields]
    exact setFieldsFrom_calm pf _ ih (setFields_neverFillsNested pf fuel) params fs.length 0 fs
      (by simp) hfs (fun j _ _ hj => absurd hj (Nat.not_lt_zero j))

/-! ## A record that can be filled is calm -/

/-- A successful iteration handles a calm field. -/
theorem setField_ok_calm (pf : ParseFloat) (self : Value → Bag → Outcome)
    (hfill : SelfFillsCalm self) (fs : List (String × Value)) (i : Nat) (name : String)
    (fv : Value) (value : String) (w : Value)
    (h : setField pf self fs i name fv value = Outcome.ok w) : Calm fv := by
  cases fv with
  | str s => exact Calm.str _
  | int k n => exact Calm.int _ _
  | uint k n =>
    apply Calm.uint
    cases hk : k.inCase with
    | false => rfl
    | true =>
      simp only [setField, hk, if_true] at h
      cases ha : atoi value <;> simp [ha] at h
  | float k x => exact Calm.float _ _
  | bool b => exact Calm.bool _
  | ptr target =>
    simp only [setField] at h
    cases hd : jsonUnmarshal value with
    | none => simp [hd] at h
    | some internalValues =>
      simp only [hd] at h
      cases target with
      | none => simp at h
      | some internalV =>
        simp only [] at h
        cases hs : self internalV internalValues with
        | ok w' => exact calm_ptr_of_calmRec _ (hfill internalV internalValues w' hs)
        | error w' e => simp [hs] at h
        | panic => simp [hs] at h
        | outOfFuel => simp [hs] at h
  | struct inner => exact Calm.struct _
  | other => exact Calm.other
  | roStr s => simp [setField] at h
  | roInt k n =>
    apply Calm.roInt
    cases hk : k.inCase with
    | false => rfl
    | true =>
      simp only [setField, hk, if_true] at h
      cases ha : atoi value <;> simp [ha] at h
  | roUint k n =>
    apply Calm.roUint
    cases hk : k.inCase with
    | false => rfl
    | true =>
      simp only [setField, hk, if_true] at h
      cases ha : atoi value <;> simp [ha] at h
  | roFloat k x =>
    simp only [setField] at h
    split at h <;> exact absurd h (by simp)
  | roBool b => simp [setField] at h
  | roPtr target =>
    simp only [setField] at h
    cases hd : jsonUnmarshal value with
    | none => simp [hd] at h
    | some internalValues =>
      simp only [hd] at h
      cases target with
      | none => simp at h
      | some internalV =>
        simp only [] at h
        cases hs : self internalV internalValues with
        | ok w' => exact calm_roPtr_of_calmRec _ (hfill internalV internalValues w' hs)
        | error w' e => simp [hs] at h
        | panic => simp [hs] at h
        | outOfFuel => simp [hs] at h

theorem setFieldsFrom_ok_calm (pf : ParseFloat) (self : Value → Bag → Outcome)
    (hfill : SelfFillsCalm self) (hself : NeverFillsNested self) (params : Bag) :
    ∀ (r i : Nat) (fs : List (String × Value)) (w : Value), i + r = fs.length →
      setFieldsFrom pf self params r i fs = Outcome.ok w →
      ∀ (j : Nat) name fv, i ≤ j → fs[j]? = some (name, fv) → Calm fv := by
  intro r
  induction r with
  | zero =>
    intro i fs w hlen _ j name fv hij hj
    have := (List.getElem?_eq_some.mp hj).1
    omega
  | succ r ih =>
    intro i fs w hlen h j jname jfv hij hj
    simp only [setFieldsFrom] at h
    cases hget : fs[i]? with
    | none => simp [hget] at h
    | some f =>
      obtain ⟨name, fv⟩ := f
      simp only [hget] at h
      cases hstep : setField pf self fs i name fv (params.get name) with
      | ok w1 =>
        obtain ⟨x, hw1, _⟩ := setField_ok_frame pf self hself fs i name fv _ w1 hget hstep
        subst hw1
        simp only [hstep, Value.fields] at h
        by_cases hji : j = i
        · subst hji
          rw [hget] at hj
          simp only [Option.some.injEq, Prod.mk.injEq] at hj
          rw [← hj.2]
          exact setField_ok_calm pf self hfill fs j name fv _ _ hstep
        · exact ih (i + 1) _ w (by simp only [List.length_set]; omega) h j jname jfv
            (by omega) (by rw [List.getElem?_set_ne (Ne.symm hji)]; exact hj)
      | error w1 e => simp [hstep] at h
      | panic => simp [hstep] at h
      | outOfFuel => simp [hstep] at h

/-- A record that `setFields` fills, with some bag, is calm. -/
theorem setFields_fillsCalm (pf : ParseFloat) (fuel : Nat) :
    SelfFillsCalm (setFields pf fuel) := by
  induction fuel with
  | zero => intro v params w h; simp [setFields] at h
  | succ fuel ih =>
    intro v params w h
    cases v with
    | struct fs =>
      simp only [setFields] at h
      refine ⟨fs, rfl, ?_⟩
      intro j name fv hj _
      exact setFieldsFrom_ok_calm pf _ ih (setFields_neverFillsNested pf fuel) params
        fs.length 0 fs w (by simp) h j name fv (Nat.zero_le _) hj
    | _ => simp [setFields] at h

/-! ## The fuel `main` gives `fillReq` -/

/-- The fuel `main` passes is enough: `fillReq` ends as the code does. -/
theorem fillReq_total (pf : ParseFloat) (req : Value) (params : Bag) :
    fillReq pf (bagSize params + 1) req params ≠ Outcome.outOfFuel := by
  unfold fillReq
  split
  · rename_i fs
    have h := (setFields_total pf (bagSize params + 1) (Value.struct fs) params
      (Nat.lt_succ_self _)).2
    cases hr : setFields pf (bagSize params + 1) (Value.struct fs) params with
    | ok w => simp
    | error w e => simp
    | panic => simp
    | outOfFuel => exact absurd hr h
  · simp
  · simp

/-- No run of `main` ends for lack of fuel. -/
theorem main_exit_ne_outOfFuel (env : Env) (flags : Flags) :
    (main env flags).exit ≠ Exit.outOfFuel := by
  unfold main
  simp only []
  repeat' split
  all_goals first
    | exact absurd ‹fillReq _ _ _ _ = Outcome.outOfFuel› (fillReq_total _ _ _)
    | simp

/-! ## The first failure -/

/-- Fail-fast without rollback, away from by-value nested records: if the value of the field
at position `i` fails conversion or decoding and the fields before position `i`, taken as a
record on their own, are filled without failure, leaving `pre'`, then `setFields` returns the
error of field `i`, the fields from position `i` on are as before the call, and the fields
before it are `pre'`. -/
theorem fail_fast_no_rollback (pf : ParseFloat) (fuel : Nat)
    (pre pre' post : List (String × Value)) (name : String) (fv : Value) (params : Bag)
    (hpre : setFields pf (fuel + 1) (Value.struct pre) params = Outcome.ok (Value.struct pre'))
    (hfail : conversionFails pf fv (params.get name) = true) :
    setFields pf (fuel + 1) (Value.struct (pre ++ (name, fv) :: post)) params =
      Outcome.error (Value.struct (pre' ++ (name, fv) :: post))
        (failure fv (params.get name)) := by
  have hself := setFields_neverFillsNested pf fuel
  simp only [setFields] at hpre ⊢
  obtain ⟨fs', hfs', hlen', _, _⟩ :=
    setFieldsFrom_ok_frame pf _ hself params pre.length 0 pre _ (by simp) hpre
  simp only [Value.struct.injEq] at hfs'
  subst hfs'
  have hrun := setFieldsFrom_append pf _ hself params ((name, fv) :: post) (post.length + 1)
    pre.length 0 pre pre' (by simp) hpre
  have hlen : (pre ++ (name, fv) :: post).length = pre.length + (post.length + 1) := by
    simp
  rw [hlen, hrun]
  have hget : (pre' ++ (name, fv) :: post)[pre.length]? = some (name, fv) := by
    rw [← hlen', List.getElem?_append_right (le_refl _)]
    simp
  simp only [setFieldsFrom, hget]
  rw [setField_fails pf _ _ _ name fv _ hfail]

/-! ## What a call leaves behind, on success or failure -/

/-- An iteration on a field that is no by-value struct changes, whether it succeeds or
fails, that field and nothing else. -/
theorem setField_state_frame (pf : ParseFloat) (self : Value → Bag → Outcome)
    (hself : NeverFillsNested self) (fs : List (String × Value)) (i : Nat) (name : String)
    (fv : Value) (value : String) (w : Value) (hget : fs[i]? = some (name, fv))
    (hns : fv.tag ≠ Tag.struct)
    (h : (setField pf self fs i name fv value).state? = some w) :
    ∃ x, w = Value.struct (fs.set i (name, x)) ∧ x.tag = fv.tag := by
  cases hr : setField pf self fs i name fv value with
  | ok w' =>
    rw [hr] at h
    simp only [Outcome.state?, Option.some.injEq] at h
    subst h
    exact setField_ok_frame pf self hself fs i name fv value w' hget hr
  | panic => rw [hr] at h; simp [Outcome.state?] at h
  | outOfFuel => rw [hr] at h; simp [Outcome.state?] at h
  | error w' e =>
    rw [hr] at h
    simp only [Outcome.state?, Option.some.injEq] at h
    subst h
    have hsame : ∀ w1 e1, Outcome.error w' e = Outcome.error w1 e1 → w1 = Value.struct fs →
        ∃ x, w' = Value.struct (fs.set i (name, x)) ∧ x.tag = fv.tag := by
      intro w1 e1 heq hw1
      simp only [Outcome.error.injEq] at heq
      exact ⟨fv, by rw [set_same fs i _ hget, heq.1, hw1], rfl⟩
    cases fv with
    | str s => simp [setField] at hr
    | int k n =>
      simp only [setField] at hr
      split_ifs at hr
      split at hr
      · exact hsame _ _ hr.symm rfl
      · exact absurd hr (by simp)
    | uint k n =>
      simp only [setField] at hr
      split_ifs at hr
      split at hr
      · exact hsame _ _ hr.symm rfl
      · exact absurd hr (by simp)
    | float k x =>
      simp only [setField] at hr
      split at hr
      · exact hsame _ _ hr.symm rfl
      · exact absurd hr (by simp)
    | bool b => simp [setField] at hr
    | ptr target =>
      simp only [setField] at hr
      split at hr
      · exact hsame _ _ hr.symm rfl
      · split at hr
        · exact absurd hr (by simp)
        · split at hr
          · exact absurd hr (by simp)
          · simp only [Outcome.error.injEq] at hr
            exact ⟨_, hr.1.symm, rfl⟩
          · exact absurd hr (by simp)
          · exact absurd hr (by simp)
    | struct inner => exact absurd rfl hns
    | other => simp [setField] at hr
    | roStr s => simp [setField] at hr
    | roInt k n =>
      simp only [setField] at hr
      split_ifs at hr
      split at hr
      · exact hsame _ _ hr.symm rfl
      · exact absurd hr (by simp)
    | roUint k n =>
      simp only [setField] at hr
      split_ifs at hr
      split at hr
      · exact hsame _ _ hr.symm rfl
      · exact absurd hr (by simp)
    | roFloat k x =>
      simp only [setField] at hr
      split at hr
      · exact hsame _ _ hr.symm rfl
      · exact absurd hr (by simp)
    | roBool b => simp [setField] at hr
    | roPtr target =>
      simp only [setField] at hr
      split at hr
      · exact hsame _ _ hr.symm rfl
      · split at hr
        · exact absurd hr (by simp)
        · split at hr
          · exact absurd hr (by simp)
          · simp only [Outcome.error.injEq] at hr
            exact ⟨_, hr.1.symm, rfl⟩
          · exact absurd hr (by simp)
          · exact absurd hr (by simp)

/-- When no field from the starting position on is a by-value struct, the loop leaves the
fields before its starting position as they were, whether it succeeds or fails. -/
theorem setFieldsFrom_state_frame (pf : ParseFloat) (self : Value → Bag → Outcome)
    (hself : NeverFillsNested self) (params : Bag) :
    ∀ (r i : Nat) (fs : List (String × Value)) (w : Value), i + r = fs.length →
      (∀ (j : Nat) name fv, i ≤ j → fs[j]? = some (name, fv) → fv.tag ≠ Tag.struct) →
      (setFieldsFrom pf self params r i fs).state? = some w →
      ∃ fs', w = Value.struct fs' ∧ fs'.length = fs.length ∧
        ∀ (j : Nat), j < i → fs'[j]? = fs[j]? := by
  intro r
  induction r with
  | zero =>
    intro i fs w _ _ h
    simp only [setFieldsFrom, Outcome.state?, Option.some.injEq] at h
    exact ⟨fs, h.symm, rfl, fun _ _ => rfl⟩
  | succ r ih =>
    intro i fs w hlen hns h
    simp only [setFieldsFrom] at h
    cases hget : fs[i]? with
    | none => simp [hget, Outcome.state?] at h
    | some f =>
      obtain ⟨name, fv⟩ := f
      simp only [hget] at h
      have hfv := hns i name fv (le_refl _) hget
      cases hstep : setField pf self fs i name fv (params.get name) with
      | ok w1 =>
        obtain ⟨x, hw1, htag⟩ :=
          setField_ok_frame pf self hself fs i name fv _ w1 hget hstep
        subst hw1
        simp only [hstep, Value.fields] at h
        obtain ⟨fs', hw, hlen', hbefore⟩ := ih (i + 1) _ w
          (by simp only [List.length_set]; omega)
          (by
            intro j jn jv hij hj
            rw [List.getElem?_set_ne (by omega)] at hj
            exact hns j jn jv (by omega) hj) h
        refine ⟨fs', hw, by simpa using hlen', ?_⟩
        intro j hj
        rw [hbefore j (by omega), List.getElem?_set_ne (by omega)]
      | error w1 e =>
        simp only [hstep] at h
        obtain ⟨x, hw1, _⟩ := setField_state_frame pf self hself fs i name fv _ w1 hget hfv
          (by rw [hstep]; rfl)
        simp only [Outcome.state?, Option.some.injEq] at h
        subst h
        refine ⟨_, hw1, by simp, ?_⟩
        intro j hj
        rw [List.getElem?_set_ne (by omega)]
      | panic => simp [hstep, Outcome.state?] at h
      | outOfFuel => simp [hstep, Outcome.state?] at h

/-! # The claims of the specification -/

/-! ## C1: Integer fields read back -/

/-- C1, at the failing inputs. With the bag `{N: "42"}`: a field `N uint8` makes `setFields`
panic (`SetInt` on an unsigned kind), and the fields `N int` and `N uint16`, which the
integer case does not list, are skipped and still read `0`; only a field of a listed signed
kind, such as `N int64`, reads back `42`. -/
theorem integer_kinds_at_42 (pf : ParseFloat) (fuel : Nat) :
    setFields pf (fuel + 1) (Value.struct [("N", Value.uint UintKind.uint8 0)]) [("N", "42")] =
        Outcome.panic ∧
      setFields pf (fuel + 1) (Value.struct [("N", Value.int IntKind.int 0)]) [("N", "42")] =
        Outcome.ok (Value.struct [("N", Value.int IntKind.int 0)]) ∧
      setFields pf (fuel + 1) (Value.struct [("N", Value.uint UintKind.uint16 0)])
          [("N", "42")] =
        Outcome.ok (Value.struct [("N", Value.uint UintKind.uint16 0)]) ∧
      setFields pf (fuel + 1) (Value.struct [("N", Value.int IntKind.int64 0)]) [("N", "42")] =
        Outcome.ok (Value.struct [("N", Value.int IntKind.int64 42)]) :=
  ⟨rfl, rfl, rfl, rfl⟩

/-! ## C2: Keys that are absent -/

/-- C2, counterexample. The record `[N int64]`, all of scalar kind, with the empty bag, in
which every key that is present holds a valid value: `setFields` returns a conversion error
(the absent key is read as `""`, which `strconv.Atoi` rejects). -/
theorem missing_int_key_fails :
    setFields rejectFloats 1 (Value.struct [("N", Value.int IntKind.int64 0)]) [] =
      Outcome.error (Value.struct [("N", Value.int IntKind.int64 0)]) (Err.convInt "") :=
  rfl

/-- C2, amended. For every record whose fields are all settable (exported) fields of scalar
kind (string, `int8` to `int64`, float, boolean) and every bag in which the key of every
integer and float field is present and each key that is present holds a valid value for its
field, `setFields` returns no error and every field whose name is absent from the bag holds
its kind's zero value afterwards. -/
theorem missing_key_zero (pf : ParseFloat) (fuel : Nat) (fs : List (String × Value))
    (params : Bag) (hs : ∀ f ∈ fs, isScalar f.2 = true)
    (hp : ∀ f ∈ fs, isNumeric f.2 = true → (params.lookup f.1).isSome = true)
    (hv : ∀ f ∈ fs, ∀ s, params.lookup f.1 = some s → validFor pf f.2 s = true) :
    ∃ fs', setFields pf (fuel + 1) (Value.struct fs) params = Outcome.ok (Value.struct fs') ∧
      fs'.length = fs.length ∧
      ∀ (i : Nat) name fv, fs[i]? = some (name, fv) → params.lookup name = none →
        fs'[i]? = some (name, zeroOf fv) := by
  have hc : ∀ f ∈ fs, converts pf f.2 (params.get f.1) = true := by
    intro f hf
    obtain ⟨name, fv⟩ := f
    have h1 := hs _ hf
    have h2 := hp _ hf
    have h3 := hv _ hf
    cases fv with
    | str s => rfl
    | int k n =>
      obtain ⟨s, hs'⟩ := Option.isSome_iff_exists.mp (h2 rfl)
      have := h3 s hs'
      simp only [validFor] at this
      simp [converts, Bag.get, hs', this]
    | uint k n => simp [isScalar] at h1
    | float k x =>
      obtain ⟨s, hs'⟩ := Option.isSome_iff_exists.mp (h2 rfl)
      have := h3 s hs'
      simp only [validFor] at this
      simp [converts, Bag.get, hs', this]
    | bool b => rfl
    | ptr target => simp [isScalar] at h1
    | struct inner => simp [isScalar] at h1
    | other => simp [isScalar] at h1
    | roStr s => simp [isScalar] at h1
    | roInt k n => simp [isScalar] at h1
    | roUint k n => simp [isScalar] at h1
    | roFloat k x => simp [isScalar] at h1
    | roBool b => simp [isScalar] at h1
    | roPtr target => simp [isScalar] at h1
  refine ⟨fs.map (convertField pf params), ?_, by simp, ?_⟩
  · have := setFieldsFrom_converts pf (setFields pf fuel) params 0 [] fs [] hc
    simp only [Nat.add_zero, List.length_nil, List.nil_append, List.append_nil,
      Nat.zero_add] at this
    simp only [setFields]
    rw [this]
    rfl
  · intro i name fv hget habs
    have hmem : (name, fv) ∈ fs := by
      obtain ⟨hlt, heq⟩ := List.getElem?_eq_some.mp hget
      exact heq ▸ List.getElem_mem hlt
    have h2 := hp _ hmem
    rw [List.getElem?_map, hget]
    simp only [Option.map_some', convertField, Option.some.injEq, Prod.mk.injEq, true_and]
    have hg : params.get name = "" := by simp [Bag.get, habs]
    cases fv with
    | str s => simp [convert, zeroOf, hg]
    | int k n => simp [isNumeric, habs] at h2
    | uint k n => simp [isNumeric, habs] at h2
    | float k x => simp [isNumeric, habs] at h2
    | bool b => simp [convert, zeroOf, hg]
    | ptr target => rfl
    | struct inner => rfl
    | other => rfl
    | roStr s => rfl
    | roInt k n => rfl
    | roUint k n => rfl
    | roFloat k x => rfl
    | roBool b => rfl
    | roPtr target => rfl

/-- Witness of C2, amended: the record `[S string, N int16, B bool]` with the bag
`{N: "-3"}`. -/
theorem missing_key_zero_witness :
    ∃ fs', setFields rejectFloats 1
        (Value.struct [("S", Value.str "old"), ("N", Value.int IntKind.int16 9),
          ("B", Value.bool true)]) [("N", "-3")] = Outcome.ok (Value.struct fs') ∧
      fs'.length = 3 ∧
      ∀ (i : Nat) name fv, ([("S", Value.str "old"), ("N", Value.int IntKind.int16 9),
          ("B", Value.bool true)] : List (String × Value))[i]? = some (name, fv) →
        List.lookup name ([("N", "-3")] : Bag) = none → fs'[i]? = some (name, zeroOf fv) :=
  missing_key_zero rejectFloats 0
    [("S", Value.str "old"), ("N", Value.int IntKind.int16 9), ("B", Value.bool true)]
    [("N", "-3")]
    (by intro f hf; simp only [List.mem_cons, List.mem_singleton, List.not_mem_nil,
          or_false] at hf; rcases hf with rfl | rfl | rfl <;> rfl)
    (by intro f hf; simp only [List.mem_cons, List.mem_singleton, List.not_mem_nil,
          or_false] at hf; rcases hf with rfl | rfl | rfl <;> intro h <;>
          first | rfl | exact absurd h (by decide))
    (by intro f hf s; simp only [List.mem_cons, List.mem_singleton, List.not_mem_nil,
          or_false] at hf; rcases hf with rfl | rfl | rfl <;> intro h <;>
          first
            | rfl
            | (have : s = "-3" := by
                 simp only [List.lookup] at h
                 exact (Option.some.inj h).symm
               subst this; rfl))

/-! ## C3: Pointer fields -/

/-- C3, at the failing input. With the bag `{P: "{\"X\":\"5\"}"}` a nil pointer field `P`
makes `setFields` panic: no instance is allocated, and the recursive call is made on the zero
`reflect.Value`.  Only a pointer that already refers to a record is filled, in place. -/
theorem nil_pointer_field_panics (pf : ParseFloat) (fuel : Nat) :
    setFields pf (fuel + 1) (Value.struct [("P", Value.ptr none)])
        [("P", "\x7b\"X\":\"5\"\x7d")] = Outcome.panic ∧
      setFields pf (fuel + 2)
          (Value.struct [("P", Value.ptr (some (Value.struct [("X", Value.int IntKind.int64 0)])))])
          [("P", "\x7b\"X\":\"5\"\x7d")] =
        Outcome.ok
          (Value.struct [("P", Value.ptr (some (Value.struct [("X", Value.int IntKind.int64 5)])))]) :=
  ⟨rfl, rfl⟩

/-! ## C4: The first failure -/

/-- C4, at the failing input. The record `[B string, S struct{}, A int8]` with the bag
`{B: "hello", S: "{\"B\":\"bye\"}", A: "x"}`.  The first field whose value fails conversion
or decoding is `A`, at position 2 (`"hello"` is a string and the text of `S` decodes), yet
after the call the earlier field `B` holds `"bye"`, not the value `"hello"` of the bag: the
by-value case has filled the enclosing record again from the nested bag, and the error that
is returned is the decoding error of that nested fill. -/
theorem nested_fill_overwrites_earlier_field :
    conversionFails rejectFloats (Value.str "") "hello" = false ∧
      conversionFails rejectFloats (Value.struct []) "\x7b\"B\":\"bye\"\x7d" = false ∧
      conversionFails rejectFloats (Value.int IntKind.int8 0) "x" = true ∧
      setFields rejectFloats 3
          (Value.struct [("B", Value.str ""), ("S", Value.struct []),
            ("A", Value.int IntKind.int8 0)])
          [("B", "hello"), ("S", "\x7b\"B\":\"bye\"\x7d"), ("A", "x")] =
        Outcome.error
          (Value.struct [("B", Value.str "bye"), ("S", Value.struct []),
            ("A", Value.int IntKind.int8 0)])
          (Err.decode "") :=
  ⟨rfl, rfl, rfl, rfl⟩

/-! ## C5: Boolean fields -/

/-- C5, counterexample. The record `[A int8, B bool]` with `B` true and the bag
`{A: "x", B: "false"}`: `setFields` fails at `A` and never reaches `B`, so after the call
the field is still true although the bag's value for it is not `"true"`. -/
theorem bool_field_not_reached :
    setFields rejectFloats 1
        (Value.struct [("A", Value.int IntKind.int8 0), ("B", Value.bool true)])
        [("A", "x"), ("B", "false")] =
      Outcome.error (Value.struct [("A", Value.int IntKind.int8 0), ("B", Value.bool true)])
        (Err.convInt "x") ∧
      Bag.get [("A", "x"), ("B", "false")] "B" ≠ "true" :=
  ⟨rfl, by decide⟩

/-- C5, amended. For every settable (exported) boolean field `name` of a record whose
earlier fields `pre`, taken as a record on their own, are filled without failure, and every
bag: the boolean field never makes `setFields` fail (the record that ends with it is filled
without error, whatever string the bag holds for it), and when no later field is a by-value
nested record the field is, after `setFields` has returned with or without an error, true if
and only if the bag's value for it (the empty string when the key is absent) is exactly the
string `"true"`. -/
theorem bool_field_rule (pf : ParseFloat) (fuel : Nat) (pre pre' post : List (String × Value))
    (name : String) (b : Bool) (params : Bag)
    (hpre : setFields pf (fuel + 1) (Value.struct pre) params = Outcome.ok (Value.struct pre'))
    (hpost : ∀ f ∈ post, f.2.tag ≠ Tag.struct) :
    ∃ d : Bool, (d = true ↔ params.get name = "true") ∧
      setFields pf (fuel + 1) (Value.struct (pre ++ [(name, Value.bool b)])) params =
        Outcome.ok (Value.struct (pre' ++ [(name, Value.bool d)])) ∧
      ∀ w, (setFields pf (fuel + 1)
          (Value.struct (pre ++ (name, Value.bool b) :: post)) params).state? = some w →
        w.fields[pre.length]? = some (name, Value.bool d) := by
  have hself := setFields_neverFillsNested pf fuel
  refine ⟨decide (params.get name = "true"), by simp, ?_, ?_⟩
  all_goals simp only [setFields] at hpre ⊢
  all_goals
    obtain ⟨fs', hfs', hlen', -, -⟩ :=
      setFieldsFrom_ok_frame pf _ hself params pre.length 0 pre _ (by simp) hpre
    simp only [Value.struct.injEq] at hfs'
    subst hfs'
  · have hrun := setFieldsFrom_append pf _ hself params [(name, Value.bool b)] 1
      pre.length 0 pre pre' (by simp) hpre
    have hlen : (pre ++ [(name, Value.bool b)]).length = pre.length + 1 := by simp
    rw [hlen, hrun]
    have hget : (pre' ++ [(name, Value.bool b)])[pre.length]? = some (name, Value.bool b) := by
      rw [← hlen', List.getElem?_append_right (le_refl _)]
      simp
    simp only [setFieldsFrom, hget, setField, Value.fields]
    rw [← hlen']
    simp
  · intro w hw
    have hrun := setFieldsFrom_append pf _ hself params ((name, Value.bool b) :: post)
      (post.length + 1) pre.length 0 pre pre' (by simp) hpre
    have hlen : (pre ++ (name, Value.bool b) :: post).length =
        pre.length + (post.length + 1) := by simp
    rw [hlen, hrun] at hw
    have hget : (pre' ++ (name, Value.bool b) :: post)[pre.length]? =
        some (name, Value.bool b) := by
      rw [← hlen', List.getElem?_append_right (le_refl _)]
      simp
    simp only [setFieldsFrom, hget, setField, Value.fields] at hw
    have hset : (pre' ++ (name, Value.bool b) :: post).set pre.length
        (name, Value.bool (decide (params.get name = "true"))) =
        pre' ++ (name, Value.bool (decide (params.get name = "true"))) :: post := by
      rw [← hlen']
      simp
    rw [hset] at hw
    obtain ⟨fs2, hw2, _, hbefore⟩ := setFieldsFrom_state_frame pf _ hself params post.length
      (pre.length + 1) _ w (by simp [hlen']; omega)
      (by
        intro j jn jv hij hj
        rw [List.getElem?_append_right (by omega)] at hj
        have hj' : post[j - pre'.length - 1]? = some (jn, jv) := by
          have : j - pre'.length = (j - pre'.length - 1) + 1 := by omega
          rw [this, List.getElem?_cons_succ] at hj
          exact hj
        obtain ⟨hlt, heq⟩ := List.getElem?_eq_some.mp hj'
        exact hpost (jn, jv) (heq ▸ List.getElem_mem hlt)) hw
    subst hw2
    simp only [Value.fields]
    rw [hbefore pre.length (by omega), ← hlen', List.getElem?_append_right (le_refl _)]
    simp

/-- Witness of C5, amended: the record `[A int8, B bool, C int16]` with the bag
`{A: "1", B: "true", C: "x"}`; `C` fails after `true` has been stored in `B`. -/
theorem bool_field_rule_witness :
    setFields rejectFloats 1
        (Value.struct ([("A", Value.int IntKind.int8 0)] ++
          ("B", Value.bool false) :: [("C", Value.int IntKind.int16 0)]))
        [("A", "1"), ("B", "true"), ("C", "x")] =
      Outcome.error
        (Value.struct [("A", Value.int IntKind.int8 1), ("B", Value.bool true),
          ("C", Value.int IntKind.int16 0)])
        (Err.convInt "x") ∧
      ∃ d : Bool, (d = true ↔ Bag.get [("A", "1"), ("B", "true"), ("C", "x")] "B" = "true") ∧
        setFields rejectFloats 1
            (Value.struct ([("A", Value.int IntKind.int8 0)] ++ [("B", Value.bool false)]))
            [("A", "1"), ("B", "true"), ("C", "x")] =
          Outcome.ok (Value.struct ([("A", Value.int IntKind.int8 1)] ++ [("B", Value.bool d)])) ∧
        ∀ w, (setFields rejectFloats 1
            (Value.struct ([("A", Value.int IntKind.int8 0)] ++
              ("B", Value.bool false) :: [("C", Value.int IntKind.int16 0)]))
            [("A", "1"), ("B", "true"), ("C", "x")]).state? = some w →
          w.fields[([("A", Value.int IntKind.int8 0)] : List (String × Value)).length]? =
            some ("B", Value.bool d) :=
  ⟨rfl,
    bool_field_rule rejectFloats 0 [("A", Value.int IntKind.int8 0)]
      [("A", Value.int IntKind.int8 1)] [("C", Value.int IntKind.int16 0)] "B" false
      [("A", "1"), ("B", "true"), ("C", "x")] rfl
      (by intro f hf; simp only [List.mem_singleton] at hf; subst hf; simp [Value.tag])⟩

/-! ## C6: Integers outside the width -/

/-- C6, at the failing inputs. With the value `"300"`, which parses and lies outside eight
bits: a field `N uint8` makes `setFields` panic, a field `N int8` stores the truncated value
`44`, and a field `N int`, which the integer case does not list, is left at `0`: three
different outcomes for three integer kinds. -/
theorem integer_kinds_at_300 (pf : ParseFloat) (fuel : Nat) :
    atoi "300" = some 300 ∧
      setFields pf (fuel + 1) (Value.struct [("N", Value.uint UintKind.uint8 0)])
          [("N", "300")] = Outcome.panic ∧
      setFields pf (fuel + 1) (Value.struct [("N", Value.int IntKind.int8 0)]) [("N", "300")] =
        Outcome.ok (Value.struct [("N", Value.int IntKind.int8 44)]) ∧
      setFields pf (fuel + 1) (Value.struct [("N", Value.int IntKind.int 0)]) [("N", "300")] =
        Outcome.ok (Value.struct [("N", Value.int IntKind.int 0)]) :=
  ⟨rfl, rfl, rfl, rfl⟩

/-! ## C7: The endpoint reference -/

/-- C7, counterexample. With the connection string `"h:-1"`, whose port is negative, and the
endpoint `"S.M"`, `main` reports no error: it goes on to the remote call with host `h` and
port `-1` and ends normally. -/
theorem negative_port_accepted :
    main sampleEnv ⟨"h:-1", "f.chateau", "S.M", "\x7b\"Name\":\"n\"\x7d"⟩ =
      ⟨[Step.copyFile, Step.changePackageName, Step.generateDefinitions, Step.pluginOpen,
          Step.lookup "GenEmptyHandlers", Step.fillReq, Step.lookup "CallClientMethod",
          Step.callClientMethod "h" (-1) "S" "M"
            (Value.ptr (some (Value.struct [("Name", Value.str "n")]))),
          Step.print "\x7b\x7d"],
        Exit.done⟩ :=
  rfl

/-- C7, amended. When the endpoint string splits on `.` into exactly two parts (service,
method) and the other steps of `main` succeed, `main` reaches the remote call with host
`host` and port `port` if and only if the connection string splits on `:` into exactly two
parts, `host` and a second part that `strconv.Atoi` reads as `port` (a base-10 integer, of
either sign); for every other connection string it ends with the reported error
`incorrect conn string` or `incorrect port`, without a remote call. -/
theorem endpoint_reference (env : Env) (flags : Flags) (svc method : String)
    (handlers : List (String × Value))
    (call : String → Int → String → String → Value → Option Value) (req req' : Value)
    (args : Bag) (h1 : env.copyFile = true) (h2 : env.changePackageName = true)
    (h3 : env.generateDefinitions = true) (h4 : env.pluginOpen = true)
    (hh : env.handlers = some handlers) (hc : env.callClientMethod = some call)
    (he : split flags.endpointString '.' = [svc, method])
    (hm : handlers.lookup method = some req)
    (ha : jsonUnmarshal flags.inputArgs = some args)
    (hf : fillReq env.parseFloat (bagSize args + 1) req args = Outcome.ok req') :
    (∀ host port, Step.callClientMethod host port svc method req' ∈ (main env flags).steps ↔
        ∃ portStr, split flags.connString ':' = [host, portStr] ∧ atoi portStr = some port) ∧
      ((¬ ∃ host portStr port,
          split flags.connString ':' = [host, portStr] ∧ atoi portStr = some port) →
        ((main env flags).exit = Exit.fatal "incorrect conn string" ∨
          (main env flags).exit = Exit.fatal "incorrect port") ∧
        ∀ host port service method req,
          Step.callClientMethod host port service method req ∉ (main env flags).steps) := by
  by_cases hlen : (split flags.connString ':').length = 2
  · obtain ⟨a, b, hab⟩ := List.length_eq_two.mp hlen
    cases hp : atoi b with
    | none =>
      have hmain : main env flags =
          ⟨preparation ++ [Step.lookup "GenEmptyHandlers"] ++ [Step.fillReq],
            Exit.fatal "incorrect port"⟩ := by
        simp [main, h1, h2, h3, h4, hh, hc, he, hm, ha, hf, hab, hp]
      rw [hmain]
      refine ⟨?_, ?_⟩
      · intro host port
        constructor
        · intro hmem
          simp [preparation] at hmem
        · rintro ⟨portStr, hs, hport⟩
          rw [hab] at hs
          simp only [List.cons.injEq, and_true] at hs
          obtain ⟨_, rfl⟩ := hs
          rw [hp] at hport
          exact absurd hport (by simp)
      · intro _
        refine ⟨Or.inr rfl, ?_⟩
        intro host port service method req hmem
        simp [preparation] at hmem
    | some p =>
      cases hcall : call a p svc method req' with
      | none =>
        have hmain : main env flags =
            ⟨preparation ++ [Step.lookup "GenEmptyHandlers"] ++ [Step.fillReq] ++
                [Step.lookup "CallClientMethod"] ++ [Step.callClientMethod a p svc method req'],
              Exit.fatal "error calling client method"⟩ := by
          simp [main, h1, h2, h3, h4, hh, hc, he, hm, ha, hf, hab, hp, hcall]
        rw [hmain]
        refine ⟨?_, ?_⟩
        · intro host port
          constructor
          · intro hmem
            simp [preparation] at hmem
            obtain ⟨rfl, rfl⟩ := hmem
            exact ⟨b, hab, hp⟩
          · rintro ⟨portStr, hs, hport⟩
            rw [hab] at hs
            simp only [List.cons.injEq, and_true] at hs
            obtain ⟨rfl, rfl⟩ := hs
            rw [hp] at hport
            simp only [Option.some.injEq] at hport
            subst hport
            simp
        · intro hno
          exact absurd ⟨a, b, p, hab, hp⟩ hno
      | some response =>
        have hsteps : ∃ tail ex, main env flags =
            ⟨preparation ++ [Step.lookup "GenEmptyHandlers"] ++ [Step.fillReq] ++
                [Step.lookup "CallClientMethod"] ++
                [Step.callClientMethod a p svc method req'] ++ tail, ex⟩ ∧
              ∀ s ∈ tail, ∃ j, s = Step.print j := by
          cases hmar : env.marshal response with
          | none =>
            exact ⟨[], Exit.fatal "error marshalling response to json", by
              simp [main, h1, h2, h3, h4, hh, hc, he, hm, ha, hf, hab, hp, hcall, hmar],
              by simp⟩
          | some j =>
            exact ⟨[Step.print j], Exit.done, by
              simp [main, h1, h2, h3, h4, hh, hc, he, hm, ha, hf, hab, hp, hcall, hmar],
              by simp⟩
        obtain ⟨tail, ex, hmain, htail⟩ := hsteps
        rw [hmain]
        refine ⟨?_, ?_⟩
        · intro host port
          constructor
          · intro hmem
            simp only [preparation, List.mem_append, List.mem_cons, List.mem_singleton,
              List.not_mem_nil, or_false, false_or, Step.callClientMethod.injEq,
              and_true, reduceCtorEq] at hmem
            rcases hmem with ⟨rfl, rfl⟩ | hmem
            · exact ⟨b, hab, hp⟩
            · obtain ⟨j, hj⟩ := htail _ hmem
              exact absurd hj (by simp)
          · rintro ⟨portStr, hs, hport⟩
            rw [hab] at hs
            simp only [List.cons.injEq, and_true] at hs
            obtain ⟨rfl, rfl⟩ := hs
            rw [hp] at hport
            simp only [Option.some.injEq] at hport
            subst hport
            simp
        · intro hno
          exact absurd ⟨a, b, p, hab, hp⟩ hno
  · have hmain : main env flags = ⟨preparation, Exit.fatal "incorrect conn string"⟩ := by
      simp [main, h1, h2, h3, h4, hlen]
    rw [hmain]
    refine ⟨?_, ?_⟩
    · intro host port
      constructor
      · intro hmem
        simp [preparation] at hmem
      · rintro ⟨portStr, hs, _⟩
        rw [hs] at hlen
        exact absurd rfl hlen
    · intro _
      refine ⟨Or.inl rfl, ?_⟩
      intro host port service method req hmem
      simp [preparation] at hmem

/-- Witness of C7, amended: the connection string `"127.0.0.1:9090"` yields host
`127.0.0.1` and port `9090`. -/
theorem endpoint_reference_witness :
    Step.callClientMethod "127.0.0.1" 9090 "S" "M"
        (Value.ptr (some (Value.struct [("Name", Value.str "n")]))) ∈
      (main sampleEnv ⟨"127.0.0.1:9090", "f.chateau", "S.M", "\x7b\"Name\":\"n\"\x7d"⟩).steps :=
  ((endpoint_reference sampleEnv ⟨"127.0.0.1:9090", "f.chateau", "S.M", "\x7b\"Name\":\"n\"\x7d"⟩
      "S" "M" [("M", Value.ptr (some (Value.struct [("Name", Value.str "")])))]
      (fun _ _ _ _ req => some req)
      (Value.ptr (some (Value.struct [("Name", Value.str "")])))
      (Value.ptr (some (Value.struct [("Name", Value.str "n")])))
      [("Name", "n")] rfl rfl rfl rfl rfl rfl rfl rfl rfl rfl).1 "127.0.0.1" 9090).mpr
    ⟨"9090", rfl, rfl⟩

/-! ## C8: What has run when a format error is reported -/

/-- C8, counterexample. With the malformed connection string `"host"`, `copyFile`,
`changePackageName`, `GenerateDefinitions` and `plugin.Open` have all been executed when the
error `incorrect conn string` is reported. -/
theorem preparation_runs_before_conn_check :
    main sampleEnv ⟨"host", "f.chateau", "S.M", "\x7b\"Name\":\"n\"\x7d"⟩ =
      ⟨[Step.copyFile, Step.changePackageName, Step.generateDefinitions, Step.pluginOpen],
        Exit.fatal "incorrect conn string"⟩ :=
  rfl

/-- C8, amended. For every run of `main` with a connection string that does not split on
`:` into exactly two parts, the run ends with a reported error after the schema file has
been copied (`copyFile` is always executed) and before any symbol lookup, request filling or
remote call; when `copyFile`, `changePackageName`, `GenerateDefinitions` and `plugin.Open`
succeed, all four have been executed when `incorrect conn string` is reported. -/
theorem malformed_conn_string_run (env : Env) (flags : Flags)
    (hconn : (split flags.connString ':').length ≠ 2) :
    Step.copyFile ∈ (main env flags).steps ∧
      (∀ s ∈ (main env flags).steps, s ∈ preparation) ∧
      (∃ msg, (main env flags).exit = Exit.fatal msg) ∧
      (env.copyFile = true → env.changePackageName = true →
        env.generateDefinitions = true → env.pluginOpen = true →
        main env flags = ⟨preparation, Exit.fatal "incorrect conn string"⟩) := by
  unfold main
  cases h1 : env.copyFile <;> cases h2 : env.changePackageName <;>
    cases h3 : env.generateDefinitions <;> cases h4 : env.pluginOpen <;>
    simp [hconn, preparation]

/-- Witness of C8, amended: the connection string `"a:b:c"`. -/
theorem malformed_conn_string_run_witness :
    Step.copyFile ∈ (main sampleEnv ⟨"a:b:c", "f.chateau", "S.M", "\x7b\x7d"⟩).steps ∧
      (∀ s ∈ (main sampleEnv ⟨"a:b:c", "f.chateau", "S.M", "\x7b\x7d"⟩).steps, s ∈ preparation) ∧
      (∃ msg, (main sampleEnv ⟨"a:b:c", "f.chateau", "S.M", "\x7b\x7d"⟩).exit = Exit.fatal msg) ∧
      (sampleEnv.copyFile = true → sampleEnv.changePackageName = true →
        sampleEnv.generateDefinitions = true → sampleEnv.pluginOpen = true →
        main sampleEnv ⟨"a:b:c", "f.chateau", "S.M", "\x7b\x7d"⟩ =
          ⟨preparation, Exit.fatal "incorrect conn string"⟩) :=
  malformed_conn_string_run sampleEnv ⟨"a:b:c", "f.chateau", "S.M", "\x7b\x7d"⟩ (by decide)

/-! ## C9: Unknown keys -/

/-- C9. Unknown keys are ignored: when two bags give the same value for every key that is
a field name of the record `v`, `setFields` on `v` returns the same result with either bag,
the same error or success and the same final state of `v`. -/
theorem unknown_keys_ignored (pf : ParseFloat) (fuel : Nat) (v : Value) (b1 b2 : Bag)
    (h : ∀ k ∈ v.fieldNames, b1.get k = b2.get k) :
    setFields pf fuel v b1 = setFields pf fuel v b2 := by
  cases fuel with
  | zero => rfl
  | succ fuel =>
    cases v with
    | struct fs =>
      simp only [setFields]
      exact setFieldsFrom_agree pf _ (setFields_neverFillsNested pf fuel) b1 b2 _ _ fs h
    | _ => rfl

/-- Witness of C9: a record with fields `A int8` and `B string`, and two bags that differ
only in the keys `Z` and `Y`, which are no field names. -/
theorem unknown_keys_ignored_witness :
    (∀ k ∈ (Value.struct [("A", Value.int IntKind.int8 0), ("B", Value.str "")]).fieldNames,
        Bag.get [("Z", "junk"), ("A", "7"), ("B", "b")] k =
          Bag.get [("A", "7"), ("Y", "\x7b"), ("B", "b")] k) ∧
      setFields rejectFloats 1
          (Value.struct [("A", Value.int IntKind.int8 0), ("B", Value.str "")])
          [("Z", "junk"), ("A", "7"), ("B", "b")] =
        setFields rejectFloats 1
          (Value.struct [("A", Value.int IntKind.int8 0), ("B", Value.str "")])
          [("A", "7"), ("Y", "\x7b"), ("B", "b")] :=
  have hk : ∀ k ∈ (Value.struct [("A", Value.int IntKind.int8 0),
      ("B", Value.str "")]).fieldNames,
      Bag.get [("Z", "junk"), ("A", "7"), ("B", "b")] k =
        Bag.get [("A", "7"), ("Y", "\x7b"), ("B", "b")] k := by
    intro k hk
    simp only [Value.fieldNames, Value.fields, List.map_cons, List.map_nil, List.mem_cons,
      List.mem_singleton, List.not_mem_nil, or_false] at hk
    rcases hk with rfl | rfl <;> rfl
  ⟨hk, unknown_keys_ignored rejectFloats 1 _ _ _ hk⟩

/-! ## C10: By-value nested records -/

/-- C10. For every record with a field `name` of by-value nested-record kind whose earlier
fields `pre` can be filled without failure: no bag makes `setFields` fill the record; for
every bag `setFields` terminates (with any fuel above `bagSize params`) and returns an
error; the iteration on the field calls `setFields` on the enclosing record itself with the
decoded nested bag, in which the value of the same field is strictly shorter than the text
that was decoded. -/
theorem nested_by_value_always_fails (pf : ParseFloat) (pre post inner : List (String × Value))
    (name : String) (fuel0 : Nat) (params0 : Bag) (w0 : Value)
    (hpre : setFields pf fuel0 (Value.struct pre) params0 = Outcome.ok w0) :
    (∀ fuel params w, setFields pf fuel
        (Value.struct (pre ++ (name, Value.struct inner) :: post)) params ≠ Outcome.ok w) ∧
      (∀ params fuel, bagSize params < fuel → ∃ w e, setFields pf fuel
        (Value.struct (pre ++ (name, Value.struct inner) :: post)) params =
          Outcome.error w e) ∧
      (∀ (self : Value → Bag → Outcome) value internalValues,
        jsonUnmarshal value = some internalValues →
        setField pf self (pre ++ (name, Value.struct inner) :: post) pre.length name
            (Value.struct inner) value =
          self (Value.struct (pre ++ (name, Value.struct inner) :: post)) internalValues ∧
        (internalValues.get name).length < value.length) := by
  have hget : (pre ++ (name, Value.struct inner) :: post)[pre.length]? =
      some (name, Value.struct inner) := by
    rw [List.getElem?_append_right (le_refl _)]
    simp
  have hnever : ∀ fuel params w, setFields pf fuel
      (Value.struct (pre ++ (name, Value.struct inner) :: post)) params ≠ Outcome.ok w :=
    fun fuel params w =>
      setFields_neverFillsNested pf fuel _ params w
        ⟨pre.length, name, inner, Nat.zero_le _, hget⟩
  refine ⟨hnever, ?_, ?_⟩
  · intro params fuel hfuel
    obtain ⟨pfs, hpfs, hcalmpre⟩ := setFields_fillsCalm pf fuel0 _ params0 w0 hpre
    simp only [Value.struct.injEq] at hpfs
    subst hpfs
    have hnostruct : ∀ (j : Nat) n inner', pre[j]? ≠ some (n, Value.struct inner') := by
      intro j n inner' hj
      exact setFields_neverFillsNested pf fuel0 pre params0 w0
        ⟨j, n, inner', Nat.zero_le _, hj⟩ hpre
    have hrec : CalmRec (Value.struct (pre ++ (name, Value.struct inner) :: post)) := by
      refine ⟨_, rfl, ?_⟩
      intro j n fv hj hns
      by_cases hlt : j < pre.length
      · rw [List.getElem?_append_left hlt] at hj
        refine hcalmpre j n fv hj ?_
        intro j' n' inner' _ hj'
        exact hnostruct j' n' inner' hj'
      · by_cases heq : j = pre.length
        · subst heq
          rw [hget] at hj
          simp only [Option.some.injEq, Prod.mk.injEq] at hj
          rw [← hj.2]
          exact Calm.struct _
        · exact absurd hget (hns pre.length name inner (by omega))
    have hc := setFields_calm pf fuel _ params hrec
    have ht := (setFields_total pf fuel
      (Value.struct (pre ++ (name, Value.struct inner) :: post)) params hfuel).2
    cases hr : setFields pf fuel
        (Value.struct (pre ++ (name, Value.struct inner) :: post)) params with
    | ok w => exact absurd hr (hnever fuel params w)
    | error w e => exact ⟨w, e, rfl⟩
    | panic => rw [hr] at hc; exact absurd hc id
    | outOfFuel => exact absurd hr ht
  · intro self value internalValues hd
    refine ⟨by simp [setField, hd], ?_⟩
    have h1 := jsonUnmarshal_shrinks value internalValues hd
    have h2 := Bag.get_length_le internalValues name
    omega

/-- Witness of C10: the record `[A int8, S struct{}, B string]`, whose earlier field `A` is
filled from the bag `{A: "1"}`, with a bag whose value for `S` decodes at two levels. -/
theorem nested_by_value_always_fails_witness :
    setFields rejectFloats 1 (Value.struct [("A", Value.int IntKind.int8 0)]) [("A", "1")] =
        Outcome.ok (Value.struct [("A", Value.int IntKind.int8 1)]) ∧
      ∃ w e, setFields rejectFloats 40
        (Value.struct ([("A", Value.int IntKind.int8 0)] ++
          ("S", Value.struct []) :: [("B", Value.str "")]))
        [("A", "1"), ("S", "\x7b\"A\":\"2\",\"S\":\"\\u007b\\u007d\"\x7d")] =
          Outcome.error w e :=
  ⟨rfl,
    (nested_by_value_always_fails rejectFloats [("A", Value.int IntKind.int8 0)]
      [("B", Value.str "")] [] "S" 1 [("A", "1")] _ rfl).2.1 _ 40 (by decide)⟩

end Castle
